import Mathlib

/-!
Shallow embedding of the `libretto` repository's core (classification,
anchor resolution, timing estimation, validation), translated from the Rust
sources in `crates/libretto-model`, `crates/libretto-parse` and
`crates/libretto-validate`, together with theorems settling the frozen
claims about it.

Modelling conventions:
* Rust `f64` times/weights are modelled as `ℚ`; all values produced by the
  estimator are finite decimal quantities, and the claims are about the
  algorithm, not about binary floating point.
* Rust `u32`/`u16`/`usize` are modelled as `Nat`.
* Rust `String` is Lean `String` (a packed `List Char`); byte indices of
  the Rust code become character indices, an order-preserving change.
* Unicode-dependent primitives (`to_lowercase`, `is_whitespace`,
  `is_alphanumeric`, NFD decomposition) are modelled with their ASCII/
  Latin-table restrictions, which agree with Rust on the inputs the
  repository handles.
* `HashMap`/`HashSet` iteration order is unspecified in Rust; the
  embedding fixes a canonical order (first-occurrence or sorted), and the
  theorems proved about iteration results are order-independent
  (membership and counts).
-/

namespace Libretto

/-! ### Character and string helpers (ASCII models of Rust `str` methods) -/

/-- Rust `str::trim`, on a character list. -/
def trimChars (l : List Char) : List Char :=
  ((l.dropWhile (fun c => c.isWhitespace)).reverse.dropWhile
    (fun c => c.isWhitespace)).reverse

/-- Rust `str::trim`. -/
def sTrim (s : String) : String := ⟨trimChars s.data⟩

/-- Rust `str::to_lowercase` (ASCII model). -/
def sLower (s : String) : String := ⟨s.data.map Char.toLower⟩

/-- Rust `str::to_uppercase` (ASCII model). -/
def sUpper (s : String) : String := ⟨s.data.map Char.toUpper⟩

/-- Substring occurrence test at a given character position. -/
def occursAt (pat l : List Char) (i : Nat) : Bool :=
  pat.isPrefixOf (l.drop i)

/-- Rust `str::find` for a substring pattern: first occurrence position. -/
def findSubIdx (l pat : List Char) : Option Nat :=
  (List.range (l.length + 1)).find? (fun i => occursAt pat l i)

/-- Rust `str::rfind` for a substring pattern: last occurrence position. -/
def rfindSubIdx (l pat : List Char) : Option Nat :=
  ((List.range (l.length + 1)).filter (fun i => occursAt pat l i)).getLast?

/-- Rust `str::contains` for a substring pattern. -/
def containsSub (l pat : List Char) : Bool :=
  (findSubIdx l pat).isSome

/-- Rust `str::contains`, on `String`. -/
def sContains (s pat : String) : Bool := containsSub s.data pat.data

/-- Rust `str::starts_with`, on `String`. -/
def sStarts (s pat : String) : Bool := pat.data.isPrefixOf s.data

/-- Rust `str::find`, on `String`. -/
def sFind (s pat : String) : Option Nat := findSubIdx s.data pat.data

/-- Rust `str::rfind`, on `String`. -/
def sRFind (s pat : String) : Option Nat := rfindSubIdx s.data pat.data

/-- Character-count length of a string. -/
def sLen (s : String) : Nat := s.data.length

/-- Drop the first `n` characters. -/
def sDrop (s : String) (n : Nat) : String := ⟨s.data.drop n⟩

/-- Take the first `n` characters (the source's `char_prefix`). -/
def sTake (s : String) (n : Nat) : String := ⟨s.data.take n⟩

/-- The slice `s[from..to]` in characters. -/
def sSlice (s : String) (a b : Nat) : String := ⟨(s.data.drop a).take (b - a)⟩

/-- Rust `str::replace` (non-overlapping, left to right), on lists; the
fuel argument (instantiated to the list length, enough since every step
consumes at least one character) keeps the recursion structural. -/
def replaceSubGo (pat rep : List Char) : Nat → List Char → List Char
  | 0, l => l
  | _ + 1, [] => []
  | fuel + 1, c :: rest =>
    if pat ≠ [] ∧ pat.isPrefixOf (c :: rest) then
      rep ++ replaceSubGo pat rep fuel ((c :: rest).drop pat.length)
    else
      c :: replaceSubGo pat rep fuel rest

/-- Rust `str::replace` on lists. -/
def replaceSub (pat rep l : List Char) : List Char :=
  replaceSubGo pat rep l.length l

/-- Rust `str::replace`, on `String`. -/
def sReplace (s pat rep : String) : String :=
  ⟨replaceSub pat.data rep.data s.data⟩

/-- The number of maximal whitespace-free runs: Rust
`str::split_whitespace().count()`. -/
def wordCountChars (l : List Char) : Nat :=
  (l.foldl
    (fun (st : Bool × Nat) c =>
      if c.isWhitespace then (false, st.2)
      else if st.1 then st else (true, st.2 + 1))
    (false, 0)).2

/-- Word count of a string. -/
def wordCount (s : String) : Nat := wordCountChars s.data

/-- The word-accumulating loop of `split_whitespace`. -/
def splitWsGo : List Char → List Char → List (List Char)
  | [], acc => if acc = [] then [] else [acc.reverse]
  | c :: rest, acc =>
    if c.isWhitespace then
      if acc = [] then splitWsGo rest []
      else acc.reverse :: splitWsGo rest []
    else splitWsGo rest (c :: acc)

/-- Split into maximal whitespace-free runs (Rust `split_whitespace`). -/
def splitWsChars (l : List Char) : List (List Char) :=
  splitWsGo l []

/-- Rust `Vec::dedup`: remove consecutive duplicates. -/
def dedupAdj : List String → List String
  | [] => []
  | [a] => [a]
  | a :: b :: t => if a = b then dedupAdj (b :: t) else a :: dedupAdj (b :: t)

/-- Lexicographic comparison of character lists by code point, the order
`sort()` uses on `Vec<String>` for ASCII data. -/
def charListLeb : List Char → List Char → Bool
  | [], _ => true
  | _ :: _, [] => false
  | a :: as, b :: bs =>
    if a.toNat < b.toNat then true
    else if b.toNat < a.toNat then false
    else charListLeb as bs

/-- String comparison via `charListLeb` on the character data. -/
def strLeb (a b : String) : Bool := charListLeb a.data b.data

/-- The order relation induced by `strLeb`. -/
def strLe (a b : String) : Prop := strLeb a b = true

instance (a b : String) : Decidable (strLe a b) :=
  inferInstanceAs (Decidable (strLeb a b = true))

/-- `sort()` followed by `dedup()` on a `Vec<String>` (also the canonical
iteration order used to model a `HashSet<&str>`). -/
def sortDedup (l : List String) : List String :=
  dedupAdj (List.insertionSort strLe l)

/-- First-occurrence deduplication (canonical model of `HashMap` key
iteration, which Rust leaves unspecified), via a seen accumulator. -/
def dedupFirstGo : List String → List String → List String
  | [], _ => []
  | a :: t, seen =>
    if seen.contains a then dedupFirstGo t seen
    else a :: dedupFirstGo t (a :: seen)

/-- First-occurrence deduplication. -/
def dedupFirst (l : List String) : List String := dedupFirstGo l []

/-- Decimal digits of a natural number, as a string (Rust `Display`). -/
def natToStr (n : Nat) : String := toString n

/-- `{:03}` zero-padding used for segment sequence numbers. -/
def pad3 (n : Nat) : String :=
  if n < 10 then "00" ++ natToStr n
  else if n < 100 then "0" ++ natToStr n
  else natToStr n

/-! ### Data model (`crates/libretto-model/src/base_libretto.rs`) -/

/-- `SegmentType` from `base_libretto.rs`. -/
inductive SegmentType where
  | sung
  | spoken
  | direction
  | interlude
deriving DecidableEq, Repr

/-- `Segment` from `base_libretto.rs`. -/
structure Segment where
  id : String
  segment_type : SegmentType
  character : Option String
  text : Option String
  translation : Option String
  direction : Option String
  group : Option String
deriving DecidableEq, Repr

/-- `NumberType` from `base_libretto.rs`. -/
inductive NumberType where
  | overture
  | aria
  | duet
  | duettino
  | terzetto
  | quartet
  | quintet
  | sextet
  | cavatina
  | canzone
  | chorus
  | finale
  | recitative
  | other
deriving DecidableEq, Repr

/-- `MusicalNumber` from `base_libretto.rs`. -/
structure MusicalNumber where
  id : String
  label : String
  number_type : NumberType
  act : String
  scene : Option String
  segments : List Segment
deriving DecidableEq, Repr

/-- `CastMember` from `base_libretto.rs`. -/
structure CastMember where
  character : String
  short_name : Option String
  voice_type : Option String
  description : Option String
deriving DecidableEq, Repr

/-- `OperaMetadata` from `base_libretto.rs` (`u16` year as `Nat`). -/
structure OperaMetadata where
  title : String
  composer : String
  librettist : Option String
  language : String
  translation_language : Option String
  year : Option Nat
deriving DecidableEq, Repr

/-- `BaseLibretto` from `base_libretto.rs`. -/
structure BaseLibretto where
  version : String
  opera : OperaMetadata
  cast : List CastMember
  numbers : List MusicalNumber
deriving DecidableEq, Repr

/-- `BaseLibretto::segment_ids`. -/
def BaseLibretto.segment_ids (b : BaseLibretto) : List String :=
  b.numbers.flatMap (fun n => n.segments.map (fun s => s.id))

/-- `BaseLibretto::find_segment`. -/
def BaseLibretto.find_segment (b : BaseLibretto) (id : String) : Option Segment :=
  (b.numbers.flatMap (fun n => n.segments)).find? (fun s => s.id = id)

/-- `BaseLibretto::find_number`. -/
def BaseLibretto.find_number (b : BaseLibretto) (id : String) : Option MusicalNumber :=
  b.numbers.find? (fun n => n.id = id)

/-! ### Data model (`crates/libretto-model/src/timing_overlay.rs`).
`TrackTiming.start_segment_id` is the anchor field populated by
`resolve.rs` and consumed by `estimate.rs`. -/

/-- `SegmentTime` (start seconds as `ℚ`). -/
structure SegmentTime where
  segment_id : String
  start : ℚ
deriving DecidableEq, Repr

/-- `TrackTiming`. -/
structure TrackTiming where
  track_title : String
  disc_number : Option Nat
  track_number : Option Nat
  duration_seconds : Option ℚ
  number_ids : List String
  start_segment_id : Option String
  segment_times : List SegmentTime
deriving DecidableEq, Repr

/-- `OmittedNumber`. -/
structure OmittedNumber where
  number_id : String
  reason : Option String
deriving DecidableEq, Repr

/-- `RecordingMetadata`. -/
structure RecordingMetadata where
  conductor : Option String
  orchestra : Option String
  year : Option Nat
  label : Option String
  album_title : Option String
deriving DecidableEq, Repr

/-- `Contributor`. -/
structure Contributor where
  name : String
  role : Option String
  date : Option String
deriving DecidableEq, Repr

/-- `TimingOverlay`. -/
structure TimingOverlay where
  version : String
  base_libretto : String
  recording : RecordingMetadata
  contributors : List Contributor
  track_timings : List TrackTiming
  omitted_numbers : List OmittedNumber
deriving DecidableEq, Repr

/-- `TimingOverlay::segment_ids`. -/
def TimingOverlay.segment_ids (o : TimingOverlay) : List String :=
  o.track_timings.flatMap (fun t => t.segment_times.map (fun s => s.segment_id))

/-- `TimingOverlay::covered_number_ids`: all referenced number ids,
sorted and deduplicated. -/
def TimingOverlay.covered_number_ids (o : TimingOverlay) : List String :=
  sortDedup (o.track_timings.flatMap (fun t => t.number_ids))

/-- `TimingOverlay::omitted_number_ids`. -/
def TimingOverlay.omitted_number_ids (o : TimingOverlay) : List String :=
  o.omitted_numbers.map (fun om => om.number_id)

/-! ### Timing estimator (`crates/libretto-model/src/estimate.rs`) -/

/-- `MIN_SEGMENT_WEIGHT`. -/
def MIN_SEGMENT_WEIGHT : ℚ := 1/2

/-- `RECITATIVE_DISCOUNT`. -/
def RECITATIVE_DISCOUNT : ℚ := 1/2

/-- `word_weight`: word count of the text, with the minimum weight for
direction/interlude segments and zero-word text. -/
def word_weight (text : Option String) (seg_type : SegmentType) : ℚ :=
  match seg_type with
  | SegmentType.direction => MIN_SEGMENT_WEIGHT
  | SegmentType.interlude => MIN_SEGMENT_WEIGHT
  | _ =>
    let count : Nat := match text with
      | some t => wordCount t
      | none => 0
    if count = 0 then MIN_SEGMENT_WEIGHT else (count : ℚ)

/-- `WeightedSegment`. -/
structure WeightedSegment where
  id : String
  weight : ℚ
deriving DecidableEq, Repr

/-- `TrackEstimateStats`. -/
structure TrackEstimateStats where
  track_title : String
  disc_number : Option Nat
  track_number : Option Nat
  duration : ℚ
  segments_estimated : Nat
  total_word_weight : ℚ
deriving DecidableEq, Repr

/-- `EstimateResult`. -/
structure EstimateResult where
  overlay : TimingOverlay
  stats : List TrackEstimateStats
  warnings : List String
deriving DecidableEq, Repr

/-- `round_to_ms`: round to millisecond precision (f64 `round` rounds
half away from zero, which on the non-negative values at play agrees
with `round`). -/
def round_to_ms (seconds : ℚ) : ℚ :=
  (round (seconds * 1000) : ℚ) / 1000

/-- Total weight of a weighted-segment list. -/
def totalWeight (segments : List WeightedSegment) : ℚ :=
  (segments.map (fun s => s.weight)).sum

/-- The loop of `distribute_segments`: `cum` is the accumulated weight. -/
def distributeGo (W duration : ℚ) : List WeightedSegment → ℚ → List SegmentTime
  | [], _ => []
  | seg :: rest, cum =>
    { segment_id := seg.id, start := round_to_ms (cum / W * duration) } ::
      distributeGo W duration rest (cum + seg.weight)

/-- `distribute_segments`: distribute weighted segments across a duration. -/
def distribute_segments (segments : List WeightedSegment) (duration : ℚ) :
    List SegmentTime :=
  if segments = [] ∨ duration ≤ 0 then []
  else if totalWeight segments = 0 then []
  else distributeGo (totalWeight segments) duration segments 0

/-- `collect_number_segments`. -/
def collect_number_segments (number : MusicalNumber) : List WeightedSegment :=
  number.segments.map (fun s =>
    { id := s.id, weight := word_weight s.text s.segment_type })

/-- `collect_track_segments`, returning the segments and the warnings it
pushes for unresolvable number references (the source's single loop,
split into the two lists it accumulates). -/
def collect_track_segments (base : BaseLibretto) (track : TrackTiming) :
    List WeightedSegment × List String :=
  (track.number_ids.flatMap (fun nid =>
     match base.find_number nid with
     | some number => collect_number_segments number
     | none => []),
   track.number_ids.filterMap (fun nid =>
     match base.find_number nid with
     | some _ => none
     | none =>
       some ("Track '" ++ track.track_title ++ "': number '" ++ nid ++
         "' not found in base libretto")))

/-! ### Anchor resolver (`crates/libretto-model/src/resolve.rs`) -/

/-- Latin-table model of NFD decomposition followed by removal of
combining marks: accented Latin letters map to their base letter, all
other characters are unchanged. -/
def deaccentChar (c : Char) : Char :=
  if c ∈ ['à', 'á', 'â', 'ã', 'ä', 'å'] then 'a'
  else if c ∈ ['è', 'é', 'ê', 'ë'] then 'e'
  else if c ∈ ['ì', 'í', 'î', 'ï'] then 'i'
  else if c ∈ ['ò', 'ó', 'ô', 'õ', 'ö'] then 'o'
  else if c ∈ ['ù', 'ú', 'û', 'ü'] then 'u'
  else if c = 'ñ' then 'n'
  else if c = 'ç' then 'c'
  else if c = 'ý' then 'y'
  else if c ∈ ['À', 'Á', 'Â', 'Ã', 'Ä', 'Å'] then 'A'
  else if c ∈ ['È', 'É', 'Ê', 'Ë'] then 'E'
  else if c ∈ ['Ì', 'Í', 'Î', 'Ï'] then 'I'
  else if c ∈ ['Ò', 'Ó', 'Ô', 'Õ', 'Ö'] then 'O'
  else if c ∈ ['Ù', 'Ú', 'Û', 'Ü'] then 'U'
  else if c = 'Ñ' then 'N'
  else if c = 'Ç' then 'C'
  else c

/-- `normalize_for_match`: strip accents, lowercase, fold smart quotes,
fold "..." into an ellipsis, drop listed punctuation, collapse double
spaces once, trim. -/
def normalize_for_match (text : String) : String :=
  let s1 : String := ⟨text.data.map deaccentChar⟩
  let s2 := sLower s1
  let s3 : String := ⟨s2.data.map (fun c =>
    if c = '‘' ∨ c = '’' then '\''
    else if c = '“' ∨ c = '”' then '"'
    else c)⟩
  let s4 := sReplace s3 ("...") ("…")
  let s5 : String := ⟨s4.data.filter (fun c =>
    ¬ (c = ',' ∨ c = ';' ∨ c = ':' ∨ c = '!' ∨ c = '?'))⟩
  let s6 := sReplace s5 ("  ") (" ")
  sTrim s6

/-- `extract_anchors` body: collect spans between straight or matching
typographic double quotes, trimmed, dropping empty spans. The fuel
argument (the title length, enough since every step consumes at least
one character) keeps the recursion structural. -/
def extractAnchorsGo : Nat → List Char → List (List Char)
  | 0, _ => []
  | _ + 1, [] => []
  | fuel + 1, c :: rest =>
    if c = '"' ∨ c = '“' then
      let close : Char := if c = '“' then '”' else '"'
      let quoted := rest.takeWhile (fun ch => ¬ (ch = close ∨ ch = '"'))
      let rest2 := (rest.drop quoted.length).drop 1
      let t := trimChars quoted
      (if t = [] then [] else [t]) ++ extractAnchorsGo fuel rest2
    else extractAnchorsGo fuel rest

/-- `extract_anchors`. -/
def extract_anchors (title : String) : List String :=
  (extractAnchorsGo title.data.length title.data).map (fun l => ⟨l⟩)

/-- `TitleAnchor`. -/
structure TitleAnchor where
  is_recitative : Bool
  anchor : String
deriving DecidableEq, Repr

/-- The sung-form keywords of `is_recitative_context`. -/
def sungKeywords : List String :=
  ["aria", "duett", "cavatina", "canzon", "terzett",
   "quartett", "quintett", "sestett", "finale", "coro",
   "sinfonia", "marcia"]

/-- `Iterator::max` over a list of naturals. -/
def foldMaxNat (l : List Nat) : Option Nat :=
  l.foldl
    (fun acc n => match acc with
      | none => some n
      | some m => some (max m n))
    none

/-- `is_recitative_context`: true when "recitativ" occurs and its last
occurrence is after the last occurrence of every sung keyword. -/
def is_recitative_context (context : String) : Bool :=
  let recit_pos := sRFind context ("recitativ")
  let last_sung_pos := foldMaxNat (sungKeywords.filterMap (fun kw => sRFind context kw))
  match recit_pos, last_sung_pos with
  | some rp, some sp => decide (rp > sp)
  | some _, none => true
  | _, _ => false

/-- The loop of `classify_title_anchors`, carrying `search_from`. -/
def classifyAnchorsGo (title : String) : List String → Nat → List TitleAnchor
  | [], _ => []
  | anchor :: rest, search_from =>
    match sFind (sDrop title search_from) anchor with
    | some pos =>
      let abs_pos := search_from + pos
      let context := sLower (sSlice title search_from abs_pos)
      { is_recitative := is_recitative_context context, anchor := anchor } ::
        classifyAnchorsGo title rest (abs_pos + sLen anchor)
    | none => classifyAnchorsGo title rest search_from

/-- `classify_title_anchors`. -/
def classify_title_anchors (title : String) : List TitleAnchor :=
  classifyAnchorsGo title (extract_anchors title) 0

/-- `SegCandidate`. -/
structure SegCandidate where
  segment_id : String
  number_id : String
  first_line : String
  full_text : String
  first_line_norm : String
  full_text_norm : String
deriving DecidableEq, Repr

/-- `build_segment_index`: all segments with text, in order. -/
def build_segment_index (base : BaseLibretto) : List SegCandidate :=
  base.numbers.flatMap (fun number =>
    number.segments.filterMap (fun seg =>
      match seg.text with
      | some text =>
        let first_line : String := ⟨text.data.takeWhile (fun c => ¬ c = '\n')⟩
        some
          { segment_id := seg.id
            number_id := number.id
            first_line := first_line
            full_text := text
            first_line_norm := normalize_for_match first_line
            full_text_norm := normalize_for_match text }
      | none => none))

/-- `MatchMethod`. -/
inductive MatchMethod where
  | prefixMatch
  | normalizedMatch
  | substringMatch
  | manual
deriving DecidableEq, Repr

/-- One matching strategy's two passes: first restricted to the given
number ids, then unrestricted. -/
def findTwoPass (p : SegCandidate → Bool) (number_ids : List String)
    (candidates : List SegCandidate) : Option SegCandidate :=
  match candidates.find? (fun c => number_ids.contains c.number_id && p c) with
  | some c => some c
  | none => candidates.find? p

/-- `match_anchor`: three strategies, each in two passes, first match wins. -/
def match_anchor (anchor : String) (number_ids : List String)
    (candidates : List SegCandidate) : Option (String × MatchMethod) :=
  let anchor_norm := normalize_for_match anchor
  let aPre := sTake anchor_norm 15
  let strat1 := fun (c : SegCandidate) =>
    sStarts c.first_line_norm aPre || sStarts anchor_norm (sTake c.first_line_norm 15)
  let strat2 := fun (c : SegCandidate) => sContains c.first_line_norm anchor_norm
  let strat3 := fun (c : SegCandidate) => sContains c.full_text_norm anchor_norm
  match findTwoPass strat1 number_ids candidates with
  | some c => some (c.segment_id, MatchMethod.prefixMatch)
  | none =>
    match findTwoPass strat2 number_ids candidates with
    | some c => some (c.segment_id, MatchMethod.normalizedMatch)
    | none =>
      match findTwoPass strat3 number_ids candidates with
      | some c => some (c.segment_id, MatchMethod.substringMatch)
      | none => none

/-- `TrackResolution`. -/
structure TrackResolution where
  track_title : String
  disc_number : Option Nat
  track_number : Option Nat
  anchors : List String
  resolved_segment_id : Option String
  match_method : Option MatchMethod
deriving DecidableEq, Repr

/-- `ResolveResult`. -/
structure ResolveResult where
  overlay : TimingOverlay
  resolutions : List TrackResolution
  warnings : List String
deriving DecidableEq, Repr

/-- The search number ids of a track: its own ids plus the previous
track's ids, each appended only if not already present. -/
def searchNids (overlay : TimingOverlay) (i : Nat) (track : TrackTiming) :
    List String :=
  let prev : List String :=
    if i = 0 then []
    else match overlay.track_timings[i-1]? with
      | some pt => pt.number_ids
      | none => []
  prev.foldl
    (fun acc nid => if acc.contains nid then acc else acc ++ [nid])
    track.number_ids

/-- The unmatched-anchor warning message of `resolve_anchors`. -/
def resolveWarnMsg (track : TrackTiming) (anchor : String) : String :=
  "D" ++ natToStr (track.disc_number.getD 0) ++ "T" ++
    natToStr (track.track_number.getD 0) ++ ": anchor \"" ++ anchor ++
    "\" — no match found in base libretto"

/-- The per-track body of `resolve_anchors`: the updated track, its
resolution record and the warnings it emits. -/
def resolveStep (base : BaseLibretto) (candidates : List SegCandidate)
    (overlay : TimingOverlay) (i : Nat) (track : TrackTiming) :
    TrackTiming × TrackResolution × List String :=
  let anchors := extract_anchors track.track_title
  if track.start_segment_id.isSome then
    (track,
     { track_title := track.track_title, disc_number := track.disc_number
       track_number := track.track_number, anchors := anchors
       resolved_segment_id := track.start_segment_id
       match_method := some MatchMethod.manual },
     [])
  else match anchors with
  | [] =>
    let fallback := (track.number_ids.head?.bind (fun nid => base.find_number nid)).bind
      (fun n => n.segments.head?.map (fun s => s.id))
    ({ track with start_segment_id := fallback },
     { track_title := track.track_title, disc_number := track.disc_number
       track_number := track.track_number, anchors := []
       resolved_segment_id := fallback, match_method := none },
     [])
  | first_anchor :: _ =>
    let search_nids := searchNids overlay i track
    match match_anchor first_anchor search_nids candidates with
    | some (seg_id, method) =>
      ({ track with start_segment_id := some seg_id },
       { track_title := track.track_title, disc_number := track.disc_number
         track_number := track.track_number, anchors := anchors
         resolved_segment_id := some seg_id, match_method := some method },
       [])
    | none =>
      (track,
       { track_title := track.track_title, disc_number := track.disc_number
         track_number := track.track_number, anchors := anchors
         resolved_segment_id := none, match_method := none },
       [resolveWarnMsg track first_anchor])

/-- `resolve_anchors`. -/
def resolve_anchors (base : BaseLibretto) (overlay : TimingOverlay) :
    ResolveResult :=
  let candidates := build_segment_index base
  let steps := overlay.track_timings.enum.map
    (fun p => resolveStep base candidates overlay p.1 p.2)
  { overlay := { overlay with track_timings := steps.map (fun s => s.1) }
    resolutions := steps.map (fun s => s.2.1)
    warnings := steps.flatMap (fun s => s.2.2) }

/-! ### Boundary-based estimation (`estimate_with_boundaries`) -/

/-- The `segment_id → position` index of `estimate_with_boundaries`
(`HashMap` built from an enumeration, so a later duplicate id wins). -/
def segIdxGet (l : List WeightedSegment) (sid : String) : Option Nat :=
  l.enum.foldl (fun acc p => if p.2.id = sid then some p.1 else acc) none

/-- The global ordered weighted-segment list over all covered numbers,
in base-libretto order. -/
def globalSegments (base : BaseLibretto) (overlay : TimingOverlay) :
    List WeightedSegment :=
  let covered := overlay.covered_number_ids
  (base.numbers.filter (fun n => covered.contains n.id)).flatMap
    collect_number_segments

/-- `resolve_section_marks`: anchor positions inside the track's range,
tagged recitative or not, sorted by position (stable sort). -/
def resolve_section_marks (title : String) (start_pos end_pos : Nat)
    (all_segments : List WeightedSegment) (candidates : List SegCandidate)
    (all_nids : List String) : List (Nat × Bool) :=
  let title_anchors := classify_title_anchors title
  let marks := title_anchors.filterMap (fun ta =>
    (match_anchor ta.anchor all_nids candidates).bind (fun m =>
      (segIdxGet all_segments m.1).bind (fun pos =>
        if start_pos ≤ pos ∧ pos < end_pos then some (pos, ta.is_recitative)
        else none)))
  List.insertionSort (fun a b => a.1 ≤ b.1) marks

/-- The recitative flag at a global position: the last mark at or before
it (`marks.iter().rev().find(..)`), defaulting to false. -/
def markAt (marks : List (Nat × Bool)) (gp : Nat) : Bool :=
  match marks.reverse.find? (fun m => m.1 ≤ gp) with
  | some m => m.2
  | none => false

/-- The end position of a track's range: the first following track whose
`start_segment_id` resolves in the index, else the list length. -/
def ewbEndPos (all_len : Nat) (all_segments : List WeightedSegment) :
    List TrackTiming → Nat
  | [] => all_len
  | t :: rest =>
    match t.start_segment_id.bind (segIdxGet all_segments) with
    | some p => p
    | none => ewbEndPos all_len all_segments rest

/-- The start_segment_id-not-found warning of `estimate_with_boundaries`. -/
def ewbWarnNotFound (track : TrackTiming) (sid : String) : String :=
  "D" ++ natToStr (track.disc_number.getD 0) ++ "T" ++
    natToStr (track.track_number.getD 0) ++ " '" ++ track.track_title ++
    "': start_segment_id '" ++ sid ++ "' not found in segment index"

/-- The empty-range warning of `estimate_with_boundaries`. -/
def ewbWarnEmptyRange (track : TrackTiming) (sp ep : Nat) : String :=
  "D" ++ natToStr (track.disc_number.getD 0) ++ "T" ++
    natToStr (track.track_number.getD 0) ++ " '" ++ track.track_title ++
    "': empty segment range (start=" ++ natToStr sp ++ ", end=" ++
    natToStr ep ++ ")"

/-- The range `[start_pos, end_pos)` of the global list with the
recitative discount applied. -/
def ewbTrackSegments (all_segments : List WeightedSegment)
    (marks : List (Nat × Bool)) (start_pos end_pos : Nat) :
    List WeightedSegment :=
  ((all_segments.drop start_pos).take (end_pos - start_pos)).enum.map
    (fun p =>
      let global_pos := start_pos + p.1
      { id := p.2.id
        weight :=
          if markAt marks global_pos then p.2.weight * RECITATIVE_DISCOUNT
          else p.2.weight })

/-- The resolved start position of a track: its `start_segment_id`'s
index position, or the position of the first segment of its first
referenced number. The second component is the warning emitted when a
set `start_segment_id` is not in the index. -/
def ewbStartPos (base : BaseLibretto) (all_segments : List WeightedSegment)
    (track : TrackTiming) : Option Nat × List String :=
  match track.start_segment_id with
  | some sid =>
    match segIdxGet all_segments sid with
    | some pos => (some pos, [])
    | none => (none, [ewbWarnNotFound track sid])
  | none =>
    (((track.number_ids.head?.bind (fun nid => base.find_number nid)).bind
        (fun n => n.segments.head?)).bind
      (fun s => segIdxGet all_segments s.id), [])

/-- The per-track body of `estimate_with_boundaries`. -/
def ewbStep (base : BaseLibretto) (overlay : TimingOverlay)
    (all_segments : List WeightedSegment) (candidates : List SegCandidate)
    (all_nids : List String) (i : Nat) (track : TrackTiming) :
    TrackTiming × List TrackEstimateStats × List String :=
  if track.segment_times ≠ [] then (track, [], [])
  else
    match track.duration_seconds with
    | none => (track, [], [])
    | some duration =>
      let sp := ewbStartPos base all_segments track
      match sp.1 with
      | none => (track, [], sp.2)
      | some start_pos =>
        let end_pos :=
          ewbEndPos all_segments.length all_segments
            (overlay.track_timings.drop (i+1))
        if end_pos ≤ start_pos then
          (track, [], [ewbWarnEmptyRange track start_pos end_pos])
        else
          let marks := resolve_section_marks track.track_title start_pos
            end_pos all_segments candidates all_nids
          let track_segments :=
            ewbTrackSegments all_segments marks start_pos end_pos
          let segment_times := distribute_segments track_segments duration
          ({ track with segment_times := segment_times },
           [{ track_title := track.track_title
              disc_number := track.disc_number
              track_number := track.track_number
              duration := duration
              segments_estimated := segment_times.length
              total_word_weight := totalWeight track_segments }],
           [])

/-- `estimate_with_boundaries`. -/
def estimate_with_boundaries (base : BaseLibretto) (overlay : TimingOverlay) :
    EstimateResult :=
  let all_segments := globalSegments base overlay
  let candidates := build_segment_index base
  let all_nids := overlay.covered_number_ids
  let steps := overlay.track_timings.enum.map
    (fun p => ewbStep base overlay all_segments candidates all_nids p.1 p.2)
  { overlay := { overlay with track_timings := steps.map (fun s => s.1) }
    stats := steps.flatMap (fun s => s.2.1)
    warnings := steps.flatMap (fun s => s.2.2) }

/-! ### Number-based estimation (`estimate_by_numbers`) -/

/-- Accumulator of the `estimate_by_numbers` loop. -/
structure ByNumState where
  tracks : List TrackTiming
  estimated : List Nat
  stats : List TrackEstimateStats
  warnings : List String
deriving Repr

/-- The canonical iteration order over `number_to_tracks` keys
(first occurrence; Rust's `HashMap` order is unspecified). -/
def number_order (overlay : TimingOverlay) : List String :=
  dedupFirst (overlay.track_timings.flatMap (fun t => t.number_ids))

/-- Indices of the tracks referencing a number id, in track order. -/
def tracksReferencing (overlay : TimingOverlay) (nid : String) : List Nat :=
  overlay.track_timings.enum.filterMap
    (fun p => if p.2.number_ids.contains nid then some p.1 else none)

/-- The multi-track consumption loop: take pending times while the start
is below the track end, or when exactly one time remains. -/
def takeTrackTimes : List SegmentTime → ℚ → List SegmentTime × List SegmentTime
  | [], _ => ([], [])
  | st :: rest, track_end =>
    if st.start < track_end ∨ rest = [] then
      let p := takeTrackTimes rest track_end
      (st :: p.1, p.2)
    else ([], st :: rest)

/-- Walk the pooled tracks in order, consuming the pooled time list and
renormalizing each taken start relative to the track's own start. -/
def pooledGo : List (Nat × ℚ) → List SegmentTime → ℚ →
    List (Nat × ℚ × List SegmentTime)
  | [], _, _ => []
  | (ti, d) :: rest, times, cumulative =>
    let track_end := cumulative + d
    let p := takeTrackTimes times track_end
    let assigned := p.1.map (fun st =>
      { st with start := max (st.start - cumulative) 0 })
    (ti, d, assigned) :: pooledGo rest p.2 track_end

/-- Write one pooled piece back to its track: set the track's times,
mark it estimated and record its stats (`share` is the per-track average
of the pooled weight used in the stats). -/
def ebnPooledWrite (overlay : TimingOverlay) (share : ℚ)
    (acc : ByNumState) (piece : Nat × ℚ × List SegmentTime) : ByNumState :=
  match overlay.track_timings[piece.1]? with
  | none => acc
  | some track =>
    { tracks := acc.tracks.set piece.1
        { track with segment_times := piece.2.2 }
      estimated := acc.estimated ++ [piece.1]
      stats := acc.stats ++
        [{ track_title := track.track_title
           disc_number := track.disc_number
           track_number := track.track_number
           duration := piece.2.1
           segments_estimated := piece.2.2.length
           total_word_weight := share }]
      warnings := acc.warnings }

/-- The per-number body of `estimate_by_numbers`. -/
def ebnStep (base : BaseLibretto) (overlay : TimingOverlay)
    (st : ByNumState) (nid : String) : ByNumState :=
  match base.find_number nid with
  | none =>
    { st with warnings := st.warnings ++
        ["Number '" ++ nid ++ "' referenced by overlay but not found in base libretto"] }
  | some number =>
    if number.segments = [] then st
    else
      let track_durations : List (Nat × ℚ) :=
        (tracksReferencing overlay nid).filterMap (fun i =>
          match overlay.track_timings[i]? with
          | some track =>
            if track.segment_times ≠ [] then none
            else track.duration_seconds.map (fun d => (i, d))
          | none => none)
      if h : track_durations = [] then st
      else if track_durations.length = 1 then
        let td := track_durations.head h
        if st.estimated.contains td.1 then st
        else
          match overlay.track_timings[td.1]? with
          | none => st
          | some track =>
            let cts := collect_track_segments base track
            let segment_times := distribute_segments cts.1 td.2
            { tracks := st.tracks.set td.1 { track with segment_times := segment_times }
              estimated := st.estimated ++ [td.1]
              stats := st.stats ++
                [{ track_title := track.track_title
                   disc_number := track.disc_number
                   track_number := track.track_number
                   duration := td.2
                   segments_estimated := segment_times.length
                   total_word_weight := totalWeight cts.1 }]
              warnings := st.warnings ++ cts.2 }
      else
        if track_durations.any (fun p => st.estimated.contains p.1) then st
        else
          let total_duration := (track_durations.map (fun p => p.2)).sum
          let segments := collect_number_segments number
          if segments = [] then st
          else
            let all_times := distribute_segments segments total_duration
            let pieces := pooledGo track_durations all_times 0
            pieces.foldl
              (ebnPooledWrite overlay
                (totalWeight segments / (track_durations.length : ℚ)))
              st

/-- `estimate_by_numbers`. -/
def estimate_by_numbers (base : BaseLibretto) (overlay : TimingOverlay) :
    EstimateResult :=
  let final := (number_order overlay).foldl (ebnStep base overlay)
    { tracks := overlay.track_timings, estimated := [], stats := [], warnings := [] }
  { overlay := { overlay with track_timings := final.tracks }
    stats := final.stats
    warnings := final.warnings }

/-- `estimate_timings`: boundary mode when any track has a resolved
`start_segment_id`, else number mode. -/
def estimate_timings (base : BaseLibretto) (overlay : TimingOverlay) :
    EstimateResult :=
  if overlay.track_timings.any (fun t => t.start_segment_id.isSome) then
    estimate_with_boundaries base overlay
  else
    estimate_by_numbers base overlay

/-! ### Validator (`crates/libretto-validate/src/lib.rs`) -/

/-- `ValidationError`. -/
inductive ValidationError where
  | MissingField (s : String)
  | DuplicateSegmentId (s : String)
  | UnknownSegmentId (s : String)
  | SegmentsUnordered (s : String)
  | NegativeTime (q : ℚ)
  | UnaccountedNumber (s : String)
  | UnknownOmittedNumber (s : String)
  | ConflictingCoverage (s : String)
  | Other (s : String)
deriving DecidableEq, Repr

/-- The per-track loop of `validate_timing_overlay_standalone`, with the
running `prev_start` (initialized to `-1.0`). -/
def standaloneTrackGo (title : String) : ℚ → List SegmentTime → List ValidationError
  | _, [] => []
  | prev, st :: rest =>
    (if st.start < 0 then [ValidationError.NegativeTime st.start] else []) ++
    (if st.start < prev then [ValidationError.SegmentsUnordered title] else []) ++
    standaloneTrackGo title st.start rest

/-- `validate_timing_overlay_standalone`. -/
def validate_timing_overlay_standalone (overlay : TimingOverlay) :
    List ValidationError :=
  overlay.track_timings.flatMap
    (fun t => standaloneTrackGo t.track_title (-1) t.segment_times)

/-- `validate_timing_overlay`: standalone checks, then unknown segment
references, then number coverage analysis. Rust iterates `HashSet`s in
an unspecified order; the embedding iterates the corresponding sorted
deduplicated lists (the code itself sorts `unaccounted`). -/
def validate_timing_overlay (overlay : TimingOverlay) (base : BaseLibretto) :
    List ValidationError :=
  let errors1 := validate_timing_overlay_standalone overlay
  let base_seg_ids := base.segment_ids
  let errors2 := overlay.track_timings.flatMap (fun t =>
    t.segment_times.filterMap (fun st =>
      if base_seg_ids.contains st.segment_id then none
      else some (ValidationError.UnknownSegmentId st.segment_id)))
  let base_number_ids := sortDedup (base.numbers.map (fun n => n.id))
  let covered := overlay.covered_number_ids
  let omitted := sortDedup overlay.omitted_number_ids
  let errors3 := omitted.filterMap (fun id =>
    if base_number_ids.contains id then none
    else some (ValidationError.UnknownOmittedNumber id))
  let errors4 := (covered.filter (fun id => omitted.contains id)).map
    ValidationError.ConflictingCoverage
  let unaccounted := base_number_ids.filter (fun id =>
    ¬ (covered.contains id ∨ omitted.contains id))
  let errors5 := unaccounted.map ValidationError.UnaccountedNumber
  errors1 ++ errors2 ++ errors3 ++ errors4 ++ errors5

/-! ### Content classifier (`crates/libretto-parse`) -/

/-- `ContentElement` from `libretto-acquire/src/types.rs`. -/
inductive ContentElement where
  | actHeader (text : String)
  | numberLabel (text : String)
  | character (text : String)
  | direction (text : String)
  | text (t : String)
  | blankLine
deriving DecidableEq, Repr

/-- `is_cast_header`. -/
def is_cast_header (text : String) : Bool :=
  let t := sLower (sTrim text)
  t == "personaggi" || t == "cast" || t == "characters" ||
    t == "dramatis personae"

/-- Match of `\(([^)]+)\)\s*$` starting at position `i` (used by
`parse_character_entry`'s regex `^(.+?)\s*\(([^)]+)\)\s*$`). -/
def parenMatchAt (l : List Char) (i : Nat) : Option (List Char) :=
  match l.drop i with
  | [] => none
  | c :: rest =>
    if c = '(' then
      let inner := rest.takeWhile (fun ch => ¬ ch = ')')
      let after := rest.drop inner.length
      if inner ≠ [] ∧ after.head? = some ')' ∧
          (after.drop 1).all (fun ch => ch.isWhitespace) then
        some inner
      else none
    else none

/-- `parse_character_entry`: `"FIGARO (bass)"` or a bare name. -/
def parse_character_entry (text0 : String) : Option CastMember :=
  let text := sTrim text0
  if text.data = [] then none
  else
    match (List.range text.data.length).find?
        (fun i => decide (0 < i) && (parenMatchAt text.data i).isSome) with
    | some i =>
      match parenMatchAt text.data i with
      | some inner =>
        let name := sTrim ⟨text.data.take i⟩
        let voice := sTrim ⟨inner⟩
        some { character := name, short_name := some name
               voice_type := some voice, description := none }
      | none => none
    | none =>
      some { character := text, short_name := some text
             voice_type := none, description := none }

/-- `split_name_description`: split on the first comma. -/
def split_name_description (text : String) : String × Option String :=
  match findSubIdx text.data ([',']) with
  | some comma_pos =>
    let name := sTrim ⟨text.data.take comma_pos⟩
    let desc := sTrim ⟨text.data.drop (comma_pos + 1)⟩
    if desc.data = [] then (name, none) else (name, some desc)
  | none => (text, none)

/-- Match of `[-–]\s*\S` at position `i` (the dash of the regex
`^(.+?)\s*[-–]\s*(\S.*)$`: a dash with some non-whitespace after it). -/
def dashMatchAt (l : List Char) (i : Nat) : Bool :=
  match l.drop i with
  | c :: rest =>
    (decide (c = '-') || decide (c = '–')) &&
      rest.any (fun ch => ¬ ch.isWhitespace)
  | [] => false

/-- `parse_text_entry`: `"Name [, description] - voice_type"`, or a
capitalized name with no dash. -/
def parse_text_entry (text0 : String) : Option CastMember :=
  let text := sTrim text0
  if text.data = [] then none
  else
    match (List.range text.data.length).find?
        (fun i => decide (0 < i) && dashMatchAt text.data i) with
    | some i =>
      let name_part := sTrim ⟨text.data.take i⟩
      let voice := sTrim ⟨text.data.drop (i + 1)⟩
      let nd := split_name_description name_part
      some { character := nd.1, short_name := none
             voice_type := some voice, description := nd.2 }
    | none =>
      match text.data.head? with
      | none => none
      | some first_char =>
        if ¬ first_char.isUpper then none
        else
          let nd := split_name_description text
          some { character := nd.1, short_name := none
                 voice_type := none, description := nd.2 }

/-- `CastParseResult`. -/
structure CastParseResult where
  members : List CastMember
  end_index : Nat
deriving DecidableEq, Repr

/-- The cast-entry loop of `extract_cast` (members kept in reverse so the
continuation rule can amend the most recent member). -/
def castEntriesGo : Nat → List ContentElement → List CastMember → CastParseResult
  | i, [], mrev => { members := mrev.reverse, end_index := i }
  | i, e :: rest, mrev =>
    match e with
    | ContentElement.blankLine => castEntriesGo (i+1) rest mrev
    | ContentElement.actHeader _ => { members := mrev.reverse, end_index := i }
    | ContentElement.numberLabel _ => { members := mrev.reverse, end_index := i }
    | ContentElement.direction _ => { members := mrev.reverse, end_index := i }
    | ContentElement.character t =>
      match parse_character_entry t with
      | some m => castEntriesGo (i+1) rest (m :: mrev)
      | none => castEntriesGo (i+1) rest mrev
    | ContentElement.text t =>
      match parse_text_entry t with
      | some m => castEntriesGo (i+1) rest (m :: mrev)
      | none =>
        match mrev with
        | [] => castEntriesGo (i+1) rest mrev
        | last :: others =>
          let newDesc := match last.description with
            | none => sTrim t
            | some d =>
              if d.data = [] then sTrim t else d ++ "; " ++ sTrim t
          castEntriesGo (i+1) rest
            ({ last with description := some newDesc } :: others)

/-- The header-scanning loop of `extract_cast`. -/
def castSkipGo : Nat → List ContentElement → CastParseResult
  | i, [] => { members := [], end_index := i }
  | i, e :: rest =>
    match e with
    | ContentElement.blankLine => castSkipGo (i+1) rest
    | ContentElement.actHeader h =>
      if is_cast_header h then castEntriesGo (i+1) rest []
      else { members := [], end_index := 0 }
    | _ => { members := [], end_index := 0 }

/-- `extract_cast`. -/
def extract_cast (elements : List ContentElement) : CastParseResult :=
  castSkipGo 0 elements

/-- The numeric `(?:act|atto)\s+(\d+)` match attempt at position `i`
(applied to the already upper-cased header). -/
def actRegexAt (l : List Char) (i : Nat) : Option (List Char) :=
  let r := l.drop i
  let tryKw := fun (kw : List Char) =>
    if kw.isPrefixOf r then
      let r1 := r.drop kw.length
      let ws := r1.takeWhile (fun c => c.isWhitespace)
      if ws = [] then none
      else
        let digits := (r1.drop ws.length).takeWhile (fun c => c.isDigit)
        if digits = [] then none else some digits
    else none
  match tryKw (("ACT").data) with
  | some d => some d
  | none => tryKw (("ATTO").data)

/-- `parse_act_number`. -/
def parse_act_number (text : String) : Option String :=
  let t := sUpper (sTrim text)
  if sContains t ("PRIMO") || sContains t ("FIRST") || sContains t ("ONE") then
    some ("1")
  else if sContains t ("SECONDO") || sContains t ("SECOND") || sContains t ("TWO") then
    some ("2")
  else if sContains t ("TERZO") || sContains t ("THIRD") || sContains t ("THREE") then
    some ("3")
  else if sContains t ("QUARTO") || sContains t ("FOURTH") || sContains t ("FOUR") then
    some ("4")
  else if sContains t ("QUINTO") || sContains t ("FIFTH") || sContains t ("FIVE") then
    some ("5")
  else
    ((List.range (t.data.length + 1)).findSome? (fun i => actRegexAt t.data i)).map
      (fun d => (⟨d⟩ : String))

/-- `classify_number`. -/
def classify_number (label : String) : NumberType :=
  let lower := sLower label
  if sContains lower ("sinfonia") || sContains lower ("overture") ||
      sContains lower ("ouverture") then NumberType.overture
  else if sContains lower ("finale") then NumberType.finale
  else if sContains lower ("recitativo") || sContains lower ("recitative") then
    (if sContains lower ("aria") then NumberType.aria else NumberType.recitative)
  else if sContains lower ("duettino") then NumberType.duettino
  else if sContains lower ("duetto") || sContains lower ("duet") then NumberType.duet
  else if sContains lower ("terzetto") || sContains lower ("trio") then NumberType.terzetto
  else if sContains lower ("quartetto") || sContains lower ("quartet") then NumberType.quartet
  else if sContains lower ("quintetto") || sContains lower ("quintet") then NumberType.quintet
  else if sContains lower ("sestetto") || sContains lower ("sextet") then NumberType.sextet
  else if sContains lower ("cavatina") then NumberType.cavatina
  else if sContains lower ("canzone") then NumberType.canzone
  else if sContains lower ("coro") || sContains lower ("chorus") then NumberType.chorus
  else if sContains lower ("aria") then NumberType.aria
  else NumberType.other

/-- Slug construction shared by `generate_id`: keep alphanumerics and
spaces, split on whitespace, join with dashes (input already lowercased
by the caller, as in the source). -/
def slugNoCase (s : String) : String :=
  ⟨List.intercalate (['-'])
    (splitWsChars (s.data.map (fun c =>
      if c.isAlphanum ∨ c = ' ' then c else ' ')))⟩

/-- Match of `n[°o.]\s*(\d+)\s*[:\-–]\s*(.+)` at position `i`
(case-insensitive `n`/`o`), returning the digits and the trailing
capture. -/
def genRegex1At (l : List Char) (i : Nat) : Option (List Char × List Char) :=
  match l.drop i with
  | c :: d :: rest =>
    if (c = 'n' ∨ c = 'N') ∧ (d = '°' ∨ d = 'o' ∨ d = 'O' ∨ d = '.') then
      let r1 := rest.dropWhile (fun ch => ch.isWhitespace)
      let digits := r1.takeWhile (fun ch => ch.isDigit)
      if digits = [] then none
      else
        match (r1.drop digits.length).dropWhile (fun ch => ch.isWhitespace) with
        | sep :: r3 =>
          if (sep = ':' ∨ sep = '-' ∨ sep = '–') ∧ r3 ≠ [] then
            some (digits, r3)
          else none
        | [] => none
    else none
  | _ => none

/-- Match of `n[°o.]\s*(\d+)` at position `i`. -/
def genRegex2At (l : List Char) (i : Nat) : Option (List Char) :=
  match l.drop i with
  | c :: d :: rest =>
    if (c = 'n' ∨ c = 'N') ∧ (d = '°' ∨ d = 'o' ∨ d = 'O' ∨ d = '.') then
      let digits := (rest.dropWhile (fun ch => ch.isWhitespace)).takeWhile
        (fun ch => ch.isDigit)
      if digits = [] then none else some digits
    else none
  | _ => none

/-- `generate_id`. -/
def generate_id (label : String) (act : String) (number_type : NumberType) :
    String :=
  if number_type = NumberType.overture then "overture"
  else
    match (List.range (label.data.length + 1)).findSome?
        (fun i => genRegex1At label.data i) with
    | some nd =>
      let desc := sLower (sTrim ⟨nd.2⟩)
      "no-" ++ (⟨nd.1⟩ : String) ++ "-" ++ slugNoCase desc
    | none =>
      match (List.range (label.data.length + 1)).findSome?
          (fun i => genRegex2At label.data i) with
      | some num => "no-" ++ (⟨num⟩ : String)
      | none =>
        let slug := slugNoCase (sLower label)
        if slug.data = [] then "number-act" ++ act else slug

/-- The keyword list of `is_noise_label`. -/
def noiseKeywords : List String :=
  ["aria", "duet", "terzet", "quartet", "quintet", "sextet",
   "cavatina", "canzone", "coro", "chorus", "finale", "recitativ",
   "overture", "sinfonia", "ouverture", "duettino"]

/-- `is_noise_label`. -/
def is_noise_label (text : String) : Bool :=
  let lower := sLower text
  if sStarts lower ("symphony") then true
  else if sStarts lower ("fin ") || lower == "fine" then true
  else
    let has_digit := text.data.any (fun c => c.isDigit)
    let has_keyword := noiseKeywords.any (fun kw => sContains lower kw)
    !has_digit && !has_keyword && !(sStarts lower ("n°")) &&
      !(sStarts lower ("no."))

/-- `RawNumber` from `structure.rs`. -/
structure RawNumber where
  label : String
  id : String
  number_type : NumberType
  act : String
  scene : Option String
  elements : List ContentElement
deriving DecidableEq, Repr

/-- Walk state of `split_into_numbers` (numbers kept in reverse so
content attaches to the most recent block). -/
structure SplitState where
  numsRev : List RawNumber
  current_act : String
  current_scene : Option String
  recit_counter : Nat
deriving Repr

/-- One step of the `split_into_numbers` walk. -/
def splitStep (st : SplitState) (elem : ContentElement) : SplitState :=
  match elem with
  | ContentElement.actHeader t =>
    match parse_act_number t with
    | some a => { st with current_act := a, current_scene := none }
    | none => st
  | ContentElement.numberLabel t =>
    if is_noise_label t then st
    else
      let nt := classify_number t
      let nid := generate_id t st.current_act nt
      { st with numsRev :=
          { label := t, id := nid, number_type := nt, act := st.current_act
            scene := st.current_scene, elements := [] } :: st.numsRev }
  | other =>
    match st.numsRev with
    | [] =>
      if other = ContentElement.blankLine then st
      else
        let rc := st.recit_counter + 1
        let rid :=
          if st.current_act.data = [] then "rec-" ++ natToStr rc
          else
            "rec-" ++ st.current_act ++
              (⟨[Char.ofNat ((96 + rc) % 256)]⟩ : String)
        { st with
            numsRev :=
              [{ label := "Recitativo", id := rid
                 number_type := NumberType.recitative, act := st.current_act
                 scene := st.current_scene, elements := [other] }]
            recit_counter := rc }
    | cur :: others =>
      { st with numsRev := { cur with elements := cur.elements ++ [other] } :: others }

/-- `split_into_numbers`. -/
def split_into_numbers (elements : List ContentElement) : List RawNumber :=
  let st := elements.foldl splitStep
    { numsRev := [], current_act := "", current_scene := none, recit_counter := 0 }
  st.numsRev.reverse.filter (fun n =>
    !(decide (n.elements = [])) || decide (n.number_type = NumberType.overture))

/-- Walk state of `split_segments`: segments in reverse, the sequence
counter and the current character. -/
def segStep (number_id : String)
    (st : List Segment × Nat × Option String) (elem : ContentElement) :
    List Segment × Nat × Option String :=
  match elem with
  | ContentElement.character name =>
    let seq := st.2.1 + 1
    ({ id := number_id ++ "-" ++ pad3 seq, segment_type := SegmentType.sung
       character := some name, text := none, translation := none
       direction := none, group := none } :: st.1,
     seq, some name)
  | ContentElement.text t0 =>
    let t := sTrim t0
    if t.data = [] then st
    else
      match st.1 with
      | seg :: others =>
        let newText := match seg.text with
          | some existing => some (existing ++ "\n" ++ t)
          | none => some t
        ({ seg with text := newText } :: others, st.2.1, st.2.2)
      | [] =>
        let seq := st.2.1 + 1
        ({ id := number_id ++ "-" ++ pad3 seq, segment_type := SegmentType.sung
           character := st.2.2, text := some t, translation := none
           direction := none, group := none } :: [],
         seq, st.2.2)
  | ContentElement.direction t0 =>
    let t := sTrim t0
    if t.data = [] then st
    else
      match st.1 with
      | seg :: others =>
        let newDir := match seg.direction with
          | some existing => some (existing ++ " " ++ t)
          | none => some t
        ({ seg with direction := newDir } :: others, st.2.1, st.2.2)
      | [] =>
        let seq := st.2.1 + 1
        ({ id := number_id ++ "-" ++ pad3 seq
           segment_type := SegmentType.direction
           character := none, text := none, translation := none
           direction := some t, group := none } :: [],
         seq, st.2.2)
  | ContentElement.blankLine => st
  | _ => st

/-- `split_segments`. -/
def split_segments (number : RawNumber) : List Segment :=
  (number.elements.foldl (segStep number.id) ([], 0, none)).1.reverse

/-- `NumberMeta` from `align.rs`. -/
structure NumberMeta where
  id : String
  label : String
  number_type : NumberType
  act : String
  scene : Option String
  segment_count : Nat
deriving DecidableEq, Repr

/-- `PipelineResult` from `align.rs`. -/
structure PipelineResult where
  cast : List CastMember
  numbers : List NumberMeta
  segments : List Segment
deriving DecidableEq, Repr

/-- `pipeline` from `align.rs`: cast extraction, structural split,
segment split. -/
def pipeline (elements : List ContentElement) : PipelineResult :=
  let cast_result := extract_cast elements
  let remaining := elements.drop cast_result.end_index
  let numbers := split_into_numbers remaining
  { cast := cast_result.members
    numbers := numbers.map (fun n =>
      { id := n.id, label := n.label, number_type := n.number_type
        act := n.act, scene := n.scene
        segment_count := (split_segments n).length })
    segments := numbers.flatMap split_segments }

/-! ### Spec-side definitions and concrete instances used by the claims -/

/-- Sum of the weights of the segments before position `i`. -/
def prefixWeight (segments : List WeightedSegment) (i : Nat) : ℚ :=
  totalWeight (segments.take i)

/-- The word count of an optional text (0 for `None`), as in `word_weight`. -/
def wordCountOpt (text : Option String) : Nat :=
  match text with
  | some t => wordCount t
  | none => 0

/-- The weight function as claim C5 words it: the word count, floored at
0.5 for zero-word segments and for direction/interlude segments. -/
def wordWeightClaimed (text : Option String) (ty : SegmentType) : ℚ :=
  if wordCountOpt text = 0 ∨ ty = SegmentType.direction ∨ ty = SegmentType.interlude
  then max (wordCountOpt text : ℚ) MIN_SEGMENT_WEIGHT
  else (wordCountOpt text : ℚ)

/-- Number of `NegativeTime` errors in a list. -/
def countNegErrors (errs : List ValidationError) : Nat :=
  errs.countP (fun e => match e with
    | ValidationError.NegativeTime _ => true
    | _ => false)

/-- Number of `SegmentsUnordered` errors in a list. -/
def countUnordErrors (errs : List ValidationError) : Nat :=
  errs.countP (fun e => match e with
    | ValidationError.SegmentsUnordered _ => true
    | _ => false)

/-- Number of negative starts in a time list. -/
def negStarts (sts : List SegmentTime) : Nat :=
  sts.countP (fun st => decide (st.start < 0))

/-- Number of adjacent descents (a start strictly below its predecessor). -/
def descents : List SegmentTime → Nat
  | a :: b :: t => (if b.start < a.start then 1 else 0) + descents (b :: t)
  | _ => 0

/-- A segment built from an id, text and type only (concrete instances). -/
def mkSeg (id : String) (txt : Option String) (ty : SegmentType) : Segment :=
  { id := id, segment_type := ty, character := none, text := txt
    translation := none, direction := none, group := none }

/-- A number built from an id and segments only (concrete instances). -/
def mkNum (id : String) (segs : List Segment) : MusicalNumber :=
  { id := id, label := id, number_type := NumberType.aria, act := "1"
    scene := none, segments := segs }

/-- A base libretto from numbers only (concrete instances). -/
def mkBase (nums : List MusicalNumber) : BaseLibretto :=
  { version := "1.0"
    opera := { title := "T", composer := "C", librettist := none
               language := "it", translation_language := none, year := none }
    cast := [], numbers := nums }

/-- A track timing from the fields the claims vary (concrete instances). -/
def mkTrack (title : String) (d : Option ℚ) (nids : List String)
    (ssid : Option String) (times : List SegmentTime) : TrackTiming :=
  { track_title := title, disc_number := some 1, track_number := some 1
    duration_seconds := d, number_ids := nids, start_segment_id := ssid
    segment_times := times }

/-- An overlay from tracks and omissions only (concrete instances). -/
def mkOverlay (tracks : List TrackTiming) (om : List OmittedNumber) :
    TimingOverlay :=
  { version := "1.0", base_libretto := "b"
    recording := { conductor := none, orchestra := none, year := none
                   label := none, album_title := none }
    contributors := [], track_timings := tracks, omitted_numbers := om }

/-- Scenario 3's weighted segments: weights 3, 9, 0.5. -/
def c1segs : List WeightedSegment :=
  [{ id := "s1", weight := 3 }, { id := "s2", weight := 9 },
   { id := "s3", weight := 1/2 }]

/-- Scenario 4's base: `no-1` with three segments (the third a direction),
`no-2` with one segment. -/
def c2base : BaseLibretto := mkBase
  [mkNum "no-1"
     [mkSeg "no-1-001" (some ("one two three")) SegmentType.sung,
      mkSeg "no-1-002"
        (some ("four five six seven eight nine ten eleven twelve"))
        SegmentType.sung,
      mkSeg "no-1-003" none SegmentType.direction],
   mkNum "no-2"
     [mkSeg "no-2-001" (some ("alpha beta gamma delta")) SegmentType.sung]]

/-- Scenario 4's overlay: track 2's `start_segment_id` is the third
segment of `no-1`, a number referenced only by track 1. -/
def c2overlay : TimingOverlay := mkOverlay
  [mkTrack "Track 1" (some 100) ["no-1"] (some ("no-1-001")) [],
   mkTrack "Track 2" (some 100) ["no-2"] (some ("no-1-003")) []]
  []

/-- An overlay whose only track already has a populated `segment_times`. -/
def c3overlay : TimingOverlay := mkOverlay
  [mkTrack "T1" (some 125) ["no-1"] none
     [{ segment_id := "no-1-001", start := 0 }]]
  []

/-- Scenario 5's base: a single number `no-1`. -/
def c4base : BaseLibretto :=
  mkBase [mkNum "no-1" [mkSeg "no-1-001" (some ("x")) SegmentType.sung]]

/-- Scenario 5's overlay: no tracks, no omissions. -/
def c4overlay : TimingOverlay := mkOverlay [] []

/-- Scenario 2's track title. -/
def c6title : String :=
  "Recitativo \"Bravo, signor padrone\"; No. 3 Cavatina \"Se vuol ballare\""

/-- A base used by the resolver witness: one number, one matchable
segment. -/
def c7base : BaseLibretto :=
  mkBase [mkNum "no-1" [mkSeg "no-1-001" (some ("Se a caso madama la notte"))
    SegmentType.sung]]

/-- Resolver witness overlay: track 0 has a manual `start_segment_id`,
track 1 has a title with no quoted anchors, track 2 has an anchor that
matches nothing. -/
def c7overlay : TimingOverlay := mkOverlay
  [mkTrack "Manual" (some 10) ["no-1"] (some ("no-1-001")) [],
   mkTrack "Sinfonia" (some 10) ["no-1"] none [],
   mkTrack "Aria \"zzz qqq www\"" (some 10) ["no-1"] none []]
  []

/-- An overlay whose first track's times violate order and sign. -/
def c8overlay : TimingOverlay := mkOverlay
  [mkTrack "T1" none [] none
     [{ segment_id := "a", start := 10 }, { segment_id := "b", start := 5 },
      { segment_id := "c", start := -2 }]]
  []

/-- Scenario 1's element sequence. -/
def c9elems : List ContentElement :=
  [ContentElement.actHeader ("Personaggi"),
   ContentElement.text ("Figaro - basso-baritono"),
   ContentElement.numberLabel ("Sinfonia"),
   ContentElement.actHeader ("ATTO PRIMO"),
   ContentElement.numberLabel ("N° 1: Duettino"),
   ContentElement.character ("FIGARO"),
   ContentElement.text ("Cinque... dieci..."),
   ContentElement.character ("SUSANNA"),
   ContentElement.text ("Ora sì ch'io son contenta.")]

/-- A base with one number of four one-word segments (pooled-split
counterexample). -/
def c10base : BaseLibretto := mkBase
  [mkNum "n1"
     [mkSeg "s1" (some ("a")) SegmentType.sung,
      mkSeg "s2" (some ("b")) SegmentType.sung,
      mkSeg "s3" (some ("c")) SegmentType.sung,
      mkSeg "s4" (some ("d")) SegmentType.sung]]

/-- Two tracks pooling `n1` with durations 10 and 90. -/
def c10overlay : TimingOverlay := mkOverlay
  [mkTrack "P1" (some 10) ["n1"] none [],
   mkTrack "P2" (some 90) ["n1"] none []]
  []

/-! ## Theorems

Batteries marks the `Rat` arithmetic operations `@[irreducible]`, which
blocks elaborator-side kernel evaluation in `decide`; they are restored
to their normal reducibility for this development's proofs (the kernel
itself ignores reducibility attributes, so checked proofs are
unaffected). -/

section TheoremsSection

attribute [local semireducible] Rat.add Rat.mul Rat.inv Rat.sub Rat.ofScientific

/-! ### The distribution law (C1) -/

theorem prefixWeight_succ (s : WeightedSegment) (t : List WeightedSegment)
    (n : Nat) :
    prefixWeight (s :: t) (n + 1) = s.weight + prefixWeight t n := by
  simp [prefixWeight, totalWeight]

theorem distributeGo_getElem? (W D : ℚ) (l : List WeightedSegment) (cum : ℚ)
    (i : Nat) :
    (distributeGo W D l cum)[i]? = (l[i]?).map (fun seg =>
      { segment_id := seg.id
        start := round_to_ms ((cum + prefixWeight l i) / W * D) }) := by
  induction l generalizing cum i with
  | nil => simp [distributeGo]
  | cons s t ih =>
    cases i with
    | zero => simp [distributeGo, prefixWeight, totalWeight]
    | succ n =>
      have hpw : cum + prefixWeight (s :: t) (n + 1) =
          (cum + s.weight) + prefixWeight t n := by
        rw [prefixWeight_succ]; ring
      simp only [distributeGo, List.getElem?_cons_succ, ih (cum + s.weight) n,
        List.getElem?_cons_succ]
      cases t[n]? <;> simp [hpw]

theorem distributeGo_length (W D : ℚ) (l : List WeightedSegment) (cum : ℚ) :
    (distributeGo W D l cum).length = l.length := by
  induction l generalizing cum with
  | nil => simp [distributeGo]
  | cons s t ih => simp [distributeGo, ih]

/-- C1. For a non-empty weighted segment list with positive duration and
positive total weight, `distribute_segments` assigns segment `i` the
start `D × (sum of weights before i) / W` rounded to the millisecond
(and produces one time per segment); a duration ≤ 0, zero total weight
or an empty list yields no output; and on Scenario 3's weights
`[3, 9, 0.5]` with duration 125 the starts are `[0, 30, 120]`. -/
theorem claim1_distribution_law (segs : List WeightedSegment) (D : ℚ) :
    (segs ≠ [] → 0 < D → 0 < totalWeight segs →
      (distribute_segments segs D).length = segs.length ∧
      ∀ (i : Nat) (seg : WeightedSegment), segs[i]? = some seg →
        (distribute_segments segs D)[i]? =
          some ({ segment_id := seg.id
                  start := round_to_ms
                    (D * prefixWeight segs i / totalWeight segs) } : SegmentTime)) ∧
    (segs = [] ∨ D ≤ 0 ∨ totalWeight segs = 0 →
      distribute_segments segs D = []) ∧
    distribute_segments c1segs 125 =
      [{ segment_id := "s1", start := 0 }, { segment_id := "s2", start := 30 },
       { segment_id := "s3", start := 120 }] := by
  refine ⟨?_, ?_, by decide⟩
  · intro hne hD hW
    have h1 : ¬ (segs = [] ∨ D ≤ 0) := by
      push_neg
      exact ⟨hne, hD⟩
    have h2 : ¬ totalWeight segs = 0 := ne_of_gt hW
    constructor
    · simp [distribute_segments, h1, h2, distributeGo_length]
    · intro i seg hseg
      simp only [distribute_segments, if_neg h1, if_neg h2]
      rw [distributeGo_getElem?, hseg]
      simp only [Option.map_some']
      congr 2
      ring_nf
  · intro h
    by_cases h0 : segs = [] ∨ D ≤ 0
    · simp [distribute_segments, h0]
    · have h2 : totalWeight segs = 0 := by tauto
      simp [distribute_segments, h0, h2]

theorem claim1_distribution_law_witness :
    c1segs ≠ [] ∧ (0:ℚ) < 125 ∧ 0 < totalWeight c1segs ∧
    (distribute_segments c1segs 125)[1]? =
      some { segment_id := "s2"
             start := round_to_ms (125 * prefixWeight c1segs 1 / totalWeight c1segs) } :=
  ⟨by decide, by decide, by decide,
   ((claim1_distribution_law c1segs 125).1 (by decide) (by decide) (by decide)).2
     1 { id := "s2", weight := 9 } (by decide)⟩

/-! ### The weight function (C5) -/

theorem ww_floor_eq (c : Nat) :
    (if c = 0 then MIN_SEGMENT_WEIGHT else (c : ℚ)) =
      max (c : ℚ) MIN_SEGMENT_WEIGHT := by
  by_cases hc : c = 0
  · subst hc
    simp [MIN_SEGMENT_WEIGHT]
  · have h1 : (1 : ℚ) ≤ (c : ℚ) := by
      exact_mod_cast Nat.one_le_iff_ne_zero.mpr hc
    rw [if_neg hc, max_eq_left]
    unfold MIN_SEGMENT_WEIGHT
    linarith

/-- C5 counterexample: on a direction segment whose text has three
words, the code's weight is 0.5 while the claimed "word count floored at
0.5" is 3. -/
theorem claim5_counterexample :
    word_weight (some ("uno due tre")) SegmentType.direction = 1/2 ∧
    wordWeightClaimed (some ("uno due tre")) SegmentType.direction = 3 ∧
    word_weight (some ("uno due tre")) SegmentType.direction ≠
      wordWeightClaimed (some ("uno due tre")) SegmentType.direction := by
  refine ⟨by decide, by decide, by decide⟩

/-- C5 amended. A direction or interlude segment always has weight 0.5
regardless of its text; any other segment's weight is its word count
floored at 0.5 (so a sung segment with n ≥ 1 words has weight n, and a
segment with no text has weight 0.5). -/
theorem claim5_weight_amended (text : Option String) (ty : SegmentType) :
    word_weight text ty =
      if ty = SegmentType.direction ∨ ty = SegmentType.interlude
      then MIN_SEGMENT_WEIGHT
      else max (wordCountOpt text : ℚ) MIN_SEGMENT_WEIGHT := by
  cases ty with
  | direction => simp [word_weight]
  | interlude => simp [word_weight]
  | sung =>
    cases text with
    | none =>
      simp [word_weight, wordCountOpt, MIN_SEGMENT_WEIGHT]
    | some t =>
      simpa [word_weight, wordCountOpt] using ww_floor_eq (wordCount t)
  | spoken =>
    cases text with
    | none =>
      simp [word_weight, wordCountOpt, MIN_SEGMENT_WEIGHT]
    | some t =>
      simpa [word_weight, wordCountOpt] using ww_floor_eq (wordCount t)

/-! ### Scenario 1: classification of a concrete element stream (C9) -/

/-- C9. Classifying Scenario 1's element sequence yields the single cast
member Figaro (basso-baritono) and the number `no-1-duettino` with
exactly the two segments `no-1-duettino-001` (FIGARO) and
`no-1-duettino-002` (SUSANNA); the only other number is the retained
empty overture. -/
theorem claim9_scenario :
    (pipeline c9elems).cast =
      [{ character := "Figaro", short_name := none
         voice_type := some ("basso-baritono"), description := none }] ∧
    (pipeline c9elems).numbers.map (fun m => (m.id, m.segment_count)) =
      [("overture", 0), ("no-1-duettino", 2)] ∧
    (pipeline c9elems).segments.map (fun s => (s.id, s.character)) =
      [("no-1-duettino-001", some ("FIGARO")),
       ("no-1-duettino-002", some ("SUSANNA"))] := by
  refine ⟨by decide, by decide, by decide⟩

/-! ### Standalone overlay validation (C8) -/

theorem ite_singleton_eq_nil {α : Type} (p : Prop) [Decidable p] (a : α) :
    ((if p then [a] else []) = []) ↔ ¬ p := by
  split <;> simp [*]

theorem standaloneTrackGo_eq_nil (title : String) (sts : List SegmentTime) :
    ∀ prev : ℚ,
      standaloneTrackGo title prev sts = [] ↔
        ((∀ st ∈ sts, 0 ≤ st.start) ∧
         sts.Chain' (fun a b => a.start ≤ b.start) ∧
         (∀ h, sts.head? = some h → prev ≤ h.start)) := by
  induction sts with
  | nil => intro prev; simp [standaloneTrackGo]
  | cons st rest ih =>
    intro prev
    have hsplit : standaloneTrackGo title prev (st :: rest) = [] ↔
        (0 ≤ st.start ∧ prev ≤ st.start ∧
          standaloneTrackGo title st.start rest = []) := by
      simp only [standaloneTrackGo, List.append_eq_nil, ite_singleton_eq_nil,
        not_lt]
      tauto
    rw [hsplit, ih st.start]
    constructor
    · rintro ⟨h0, hp, hnn, hch, hhd⟩
      refine ⟨?_, ?_, ?_⟩
      · intro x hx
        rcases List.mem_cons.mp hx with rfl | hx
        · exact h0
        · exact hnn x hx
      · rw [List.chain'_cons']
        exact ⟨fun h hh => hhd h (by simpa using hh), hch⟩
      · intro h hh
        simp only [List.head?_cons, Option.some.injEq] at hh
        subst hh
        exact hp
    · rintro ⟨hnn, hch, hp⟩
      rw [List.chain'_cons'] at hch
      refine ⟨hnn st (List.mem_cons_self _ _), hp st rfl,
        fun x hx => hnn x (List.mem_cons_of_mem _ hx), hch.2, ?_⟩
      intro h hh
      exact hch.1 h (by simpa using hh)

theorem standaloneTrackGo_countNeg (title : String) (sts : List SegmentTime) :
    ∀ prev : ℚ,
      countNegErrors (standaloneTrackGo title prev sts) = negStarts sts := by
  induction sts with
  | nil => intro prev; simp [standaloneTrackGo, countNegErrors, negStarts]
  | cons st rest ih =>
    intro prev
    have hr := ih st.start
    unfold countNegErrors negStarts at hr ⊢
    simp only [standaloneTrackGo, List.countP_append]
    by_cases h0 : st.start < 0 <;> by_cases h1 : st.start < prev <;>
      · simp [h0, h1, List.countP_cons]
        try omega

theorem standaloneTrackGo_countUnord (title : String) (sts : List SegmentTime) :
    ∀ prev : ℚ,
      descents sts +
        (sts.head?.elim 0 (fun h => if h.start < prev then 1 else 0)) ≤
      countUnordErrors (standaloneTrackGo title prev sts) := by
  induction sts with
  | nil => intro prev; simp [standaloneTrackGo, descents, countUnordErrors]
  | cons st rest ih =>
    intro prev
    have hdes : descents (st :: rest) =
        (rest.head?.elim 0 (fun b => if b.start < st.start then 1 else 0)) +
          descents rest := by
      cases rest with
      | nil => simp [descents]
      | cons b t =>
        simp only [descents, List.head?_cons, Option.elim]
        try omega
    have hr := ih st.start
    have hhd : ((st :: rest).head?.elim 0
        (fun h => if h.start < prev then 1 else 0) : Nat) =
        if st.start < prev then 1 else 0 := by
      simp [Option.elim]
    unfold countUnordErrors at hr ⊢
    simp only [standaloneTrackGo, List.countP_append]
    rw [hdes, hhd]
    by_cases h0 : st.start < 0 <;> by_cases h1 : st.start < prev <;>
      · simp [h0, h1, List.countP_cons]
        try omega

theorem flatStandalone_eq_nil (l : List TrackTiming) :
    l.flatMap (fun t => standaloneTrackGo t.track_title (-1) t.segment_times) = [] ↔
      ∀ t ∈ l,
        (∀ st ∈ t.segment_times, 0 ≤ st.start) ∧
        t.segment_times.Chain' (fun a b => a.start ≤ b.start) := by
  rw [List.flatMap_eq_nil_iff]
  constructor
  · intro h t ht
    have := (standaloneTrackGo_eq_nil t.track_title t.segment_times (-1)).mp (h t ht)
    exact ⟨this.1, this.2.1⟩
  · intro h t ht
    refine (standaloneTrackGo_eq_nil t.track_title t.segment_times (-1)).mpr
      ⟨(h t ht).1, (h t ht).2, ?_⟩
    intro x hx
    have hxm : x ∈ t.segment_times := List.mem_of_mem_head? hx

    have := (h t ht).1 x hxm
    linarith

theorem flatStandalone_countNeg (l : List TrackTiming) :
    countNegErrors
        (l.flatMap (fun t => standaloneTrackGo t.track_title (-1) t.segment_times)) =
      (l.map (fun t => negStarts t.segment_times)).sum := by
  induction l with
  | nil => simp [countNegErrors]
  | cons t ts ih =>
    have h1 := standaloneTrackGo_countNeg t.track_title t.segment_times (-1)
    unfold countNegErrors at h1 ih ⊢
    simp only [List.flatMap_cons, List.map_cons, List.sum_cons, List.countP_append]
    omega

theorem flatStandalone_countUnord (l : List TrackTiming) :
    (l.map (fun t => descents t.segment_times)).sum ≤
      countUnordErrors
        (l.flatMap (fun t => standaloneTrackGo t.track_title (-1) t.segment_times)) := by
  induction l with
  | nil => simp [countUnordErrors]
  | cons t ts ih =>
    have h1 := standaloneTrackGo_countUnord t.track_title t.segment_times (-1)
    unfold countUnordErrors at h1 ih ⊢
    simp only [List.flatMap_cons, List.map_cons, List.sum_cons, List.countP_append]
    have h2 : descents t.segment_times ≤
        List.countP (fun e => match e with
          | ValidationError.SegmentsUnordered s => true
          | _ => false) (standaloneTrackGo t.track_title (-1) t.segment_times) := by
      omega
    omega

/-- C8. Standalone validation returns an empty error list iff, within
every track, every start is non-negative and the starts are
non-decreasing; moreover one `NegativeTime` error is emitted per
negative start, and at least one `SegmentsUnordered` error per start
smaller than its predecessor. -/
theorem claim8_standalone (overlay : TimingOverlay) :
    (validate_timing_overlay_standalone overlay = [] ↔
      ∀ t ∈ overlay.track_timings,
        (∀ st ∈ t.segment_times, 0 ≤ st.start) ∧
        t.segment_times.Chain' (fun a b => a.start ≤ b.start)) ∧
    countNegErrors (validate_timing_overlay_standalone overlay) =
      (overlay.track_timings.map (fun t => negStarts t.segment_times)).sum ∧
    (overlay.track_timings.map (fun t => descents t.segment_times)).sum ≤
      countUnordErrors (validate_timing_overlay_standalone overlay) :=
  ⟨flatStandalone_eq_nil overlay.track_timings,
   flatStandalone_countNeg overlay.track_timings,
   flatStandalone_countUnord overlay.track_timings⟩

theorem claim8_standalone_witness :
    validate_timing_overlay_standalone c4overlay = [] :=
  (claim8_standalone c4overlay).1.mpr (by simp [c4overlay, mkOverlay])

/-! ### Recitative classification of title anchors (C6) -/

theorem foldMaxGo_some (l : List Nat) :
    ∀ a : Nat, ∃ b : Nat,
      l.foldl (fun acc n => match acc with
        | none => some n
        | some m => some (max m n)) (some a) = some b ∧
      (b = a ∨ b ∈ l) ∧ a ≤ b ∧ ∀ n ∈ l, n ≤ b := by
  induction l with
  | nil => intro a; exact ⟨a, rfl, Or.inl rfl, le_refl a, by simp⟩
  | cons n t ih =>
    intro a
    obtain ⟨b, hb, hmem, hle, hall⟩ := ih (max a n)
    refine ⟨b, hb, ?_, le_trans (le_max_left a n) hle, ?_⟩
    · rcases hmem with hb' | hb'
      · rcases max_choice a n with hm | hm
        · exact Or.inl (by rw [hb', hm])
        · exact Or.inr (by rw [hb', hm]; exact List.mem_cons_self _ _)
      · exact Or.inr (List.mem_cons_of_mem _ hb')
    · intro x hx
      rcases List.mem_cons.mp hx with rfl | hx
      · exact le_trans (le_max_right a x) hle
      · exact hall x hx

theorem foldMaxNat_none_iff (l : List Nat) : foldMaxNat l = none ↔ l = [] := by
  cases l with
  | nil => simp [foldMaxNat]
  | cons n t =>
    simp only [foldMaxNat, List.foldl_cons]
    obtain ⟨b, hb, _⟩ := foldMaxGo_some t n
    simp [hb]

theorem foldMaxNat_some_spec (l : List Nat) (m : Nat)
    (h : foldMaxNat l = some m) : m ∈ l ∧ ∀ n ∈ l, n ≤ m := by
  cases l with
  | nil => simp [foldMaxNat] at h
  | cons n t =>
    simp only [foldMaxNat, List.foldl_cons] at h
    obtain ⟨b, hb, hmem, hle, hall⟩ := foldMaxGo_some t n
    rw [hb] at h
    cases h
    constructor
    · rcases hmem with rfl | hb'
      · exact List.mem_cons_self _ _
      · exact List.mem_cons_of_mem _ hb'
    · intro x hx
      rcases List.mem_cons.mp hx with rfl | hx
      · exact hle
      · exact hall x hx

/-- C6. An anchor context is classified recitative exactly when
"recitativ" occurs and its rightmost occurrence is rightward of the
rightmost occurrence of every sung-form keyword (in particular when no
sung keyword occurs at all); and on Scenario 2's title the two anchors
are classified recitative and non-recitative respectively. -/
theorem claim6_recitative :
    (∀ context : String,
        is_recitative_context context = true ↔
          ∃ rp, sRFind context ("recitativ") = some rp ∧
            ∀ kw ∈ sungKeywords, ∀ sp, sRFind context kw = some sp → sp < rp) ∧
    classify_title_anchors c6title =
      [{ is_recitative := true, anchor := "Bravo, signor padrone" },
       { is_recitative := false, anchor := "Se vuol ballare" }] := by
  constructor
  · intro context
    unfold is_recitative_context
    cases hr : sRFind context ("recitativ") with
    | none => simp [hr]
    | some rp =>
      cases hs : foldMaxNat (sungKeywords.filterMap (fun kw => sRFind context kw)) with
      | none =>
        have hnil := (foldMaxNat_none_iff _).mp hs
        have hnone := List.filterMap_eq_nil_iff.mp hnil
        simp only [hr, hs]
        constructor
        · intro _
          refine ⟨rp, rfl, ?_⟩
          intro kw hkw sp hsp
          rw [hnone kw hkw] at hsp
          cases hsp
        · intro _
          trivial
      | some sp0 =>
        have hspec := foldMaxNat_some_spec _ _ hs
        simp only [hr, hs, decide_eq_true_eq]
        constructor
        · intro hgt
          refine ⟨rp, rfl, ?_⟩
          intro kw hkw sp hsp
          have hmem : sp ∈ sungKeywords.filterMap (fun kw => sRFind context kw) :=
            List.mem_filterMap.mpr ⟨kw, hkw, hsp⟩
          have := hspec.2 sp hmem
          omega
        · rintro ⟨rp', hrp', hall⟩
          cases hrp'
          obtain ⟨kw, hkw, hfk⟩ := List.mem_filterMap.mp hspec.1
          exact hall kw hkw sp0 hfk
  · decide

theorem claim6_recitative_witness :
    ∃ rp, sRFind ("recitativo ") ("recitativ") = some rp ∧
      ∀ kw ∈ sungKeywords, ∀ sp, sRFind ("recitativo ") kw = some sp → sp < rp :=
  (claim6_recitative.1 ("recitativo ")).mp (by decide)

/-! ### Anchor resolution per-track contract (C7) -/

theorem resolve_anchors_getElem (base : BaseLibretto) (overlay : TimingOverlay)
    (i : Nat) (track : TrackTiming)
    (ht : overlay.track_timings[i]? = some track) :
    (resolve_anchors base overlay).overlay.track_timings[i]? =
      some ((resolveStep base (build_segment_index base) overlay i track).1) := by
  unfold resolve_anchors
  simp [ht]

theorem resolve_anchors_warning_mem (base : BaseLibretto) (overlay : TimingOverlay)
    (i : Nat) (track : TrackTiming)
    (ht : overlay.track_timings[i]? = some track)
    (w : String)
    (hw : w ∈ (resolveStep base (build_segment_index base) overlay i track).2.2) :
    w ∈ (resolve_anchors base overlay).warnings := by
  unfold resolve_anchors
  simp only []
  refine List.mem_flatMap.mpr
    ⟨resolveStep base (build_segment_index base) overlay i track, ?_, hw⟩
  refine List.getElem?_mem (l := overlay.track_timings.enum.map
    (fun p => resolveStep base (build_segment_index base) overlay p.1 p.2))
    (n := i) ?_
  simp [ht]

/-- C7. The Anchor Resolver (1) preserves an already-set
`start_segment_id` unchanged; (2) for a track with no quoted anchors,
falls back to the first segment of its first referenced number when that
number resolves and has a segment; and (3) for a track whose first
anchor matches no candidate, emits the unmatched-anchor warning and
leaves `start_segment_id` unset. -/
theorem claim7_resolver (base : BaseLibretto) (overlay : TimingOverlay)
    (i : Nat) (track : TrackTiming)
    (ht : overlay.track_timings[i]? = some track) :
    (track.start_segment_id.isSome = true →
      ((resolve_anchors base overlay).overlay.track_timings[i]?).map
          (fun t => t.start_segment_id) = some track.start_segment_id) ∧
    (track.start_segment_id = none →
      extract_anchors track.track_title = [] →
      ∀ nid n s, track.number_ids.head? = some nid →
        base.find_number nid = some n → n.segments.head? = some s →
        ((resolve_anchors base overlay).overlay.track_timings[i]?).map
            (fun t => t.start_segment_id) = some (some s.id)) ∧
    (track.start_segment_id = none →
      ∀ a rest, extract_anchors track.track_title = a :: rest →
        match_anchor a (searchNids overlay i track) (build_segment_index base) = none →
        ((resolve_anchors base overlay).overlay.track_timings[i]?).map
            (fun t => t.start_segment_id) = some none ∧
        resolveWarnMsg track a ∈ (resolve_anchors base overlay).warnings) := by
  have hg := resolve_anchors_getElem base overlay i track ht
  refine ⟨?_, ?_, ?_⟩
  · intro hsome
    rw [hg]
    simp [resolveStep, hsome]
  · intro hnone hanch nid n s hnid hn hs
    rw [hg]
    simp [resolveStep, hnone, hanch, hnid, hn, hs]
  · intro hnone a rest hanch hmatch
    constructor
    · rw [hg]
      simp [resolveStep, hnone, hanch, hmatch]
    · refine resolve_anchors_warning_mem base overlay i track ht _ ?_
      simp [resolveStep, hnone, hanch, hmatch]

theorem claim7_resolver_witness :
    (((resolve_anchors c7base c7overlay).overlay.track_timings[0]?).map
        (fun t => t.start_segment_id) = some (some ("no-1-001"))) ∧
    (((resolve_anchors c7base c7overlay).overlay.track_timings[1]?).map
        (fun t => t.start_segment_id) = some (some ("no-1-001"))) ∧
    (((resolve_anchors c7base c7overlay).overlay.track_timings[2]?).map
        (fun t => t.start_segment_id) = some none) ∧
    resolveWarnMsg (mkTrack "Aria \"zzz qqq www\"" (some 10) ["no-1"] none [])
        ("zzz qqq www") ∈ (resolve_anchors c7base c7overlay).warnings := by
  refine ⟨?_, ?_, ?_, ?_⟩
  · exact (claim7_resolver c7base c7overlay 0
      (mkTrack "Manual" (some 10) ["no-1"] (some ("no-1-001")) [])
      (by decide)).1 (by decide)
  · exact (claim7_resolver c7base c7overlay 1
      (mkTrack "Sinfonia" (some 10) ["no-1"] none [])
      (by decide)).2.1 rfl (by decide)
      (mkNum "no-1" [mkSeg "no-1-001" (some ("Se a caso madama la notte"))
        SegmentType.sung]).id
      (mkNum "no-1" [mkSeg "no-1-001" (some ("Se a caso madama la notte"))
        SegmentType.sung])
      (mkSeg "no-1-001" (some ("Se a caso madama la notte")) SegmentType.sung)
      (by decide) (by decide) (by decide)
  · exact ((claim7_resolver c7base c7overlay 2
      (mkTrack "Aria \"zzz qqq www\"" (some 10) ["no-1"] none [])
      (by decide)).2.2 rfl ("zzz qqq www") [] (by decide) (by decide)).1
  · exact ((claim7_resolver c7base c7overlay 2
      (mkTrack "Aria \"zzz qqq www\"" (some 10) ["no-1"] none [])
      (by decide)).2.2 rfl ("zzz qqq www") [] (by decide) (by decide)).2

/-! ### Number coverage analysis (C4) -/

theorem mem_dedupAdj (x : String) : ∀ l : List String, x ∈ dedupAdj l ↔ x ∈ l := by
  intro l
  induction l with
  | nil => simp [dedupAdj]
  | cons a t ih =>
    cases t with
    | nil => simp [dedupAdj]
    | cons b t2 =>
      by_cases hab : a = b
      · subst hab
        rw [show dedupAdj (a :: a :: t2) = dedupAdj (a :: t2) from by
          simp [dedupAdj]]
        rw [ih]
        simp
      · simp only [dedupAdj, if_neg hab, List.mem_cons]
        rw [ih]
        simp

theorem charListLeb_total : ∀ xs ys : List Char,
    charListLeb xs ys = true ∨ charListLeb ys xs = true := by
  intro xs
  induction xs with
  | nil => intro ys; left; simp [charListLeb]
  | cons a as ih =>
    intro ys
    cases ys with
    | nil => right; simp [charListLeb]
    | cons b bs =>
      simp only [charListLeb]
      by_cases h1 : a.toNat < b.toNat
      · left; rw [if_pos h1]
      · by_cases h2 : b.toNat < a.toNat
        · right; rw [if_pos h2]
        · rw [if_neg h1, if_neg h2, if_neg h2, if_neg h1]
          exact ih bs

theorem charListLeb_trans : ∀ xs ys zs : List Char,
    charListLeb xs ys = true → charListLeb ys zs = true →
    charListLeb xs zs = true := by
  intro xs
  induction xs with
  | nil => intro ys zs _ _; simp [charListLeb]
  | cons a as ih =>
    intro ys zs hxy hyz
    cases ys with
    | nil => simp [charListLeb] at hxy
    | cons b bs =>
      cases zs with
      | nil => simp [charListLeb] at hyz
      | cons c cs =>
        simp only [charListLeb] at hxy hyz ⊢
        by_cases hab : a.toNat < b.toNat
        · rw [if_pos hab] at hxy
          by_cases hbc : b.toNat < c.toNat
          · rw [if_pos (by omega : a.toNat < c.toNat)]
          · rw [if_neg hbc] at hyz
            by_cases hcb : c.toNat < b.toNat
            · rw [if_pos hcb] at hyz; cases hyz
            · rw [if_pos (by omega : a.toNat < c.toNat)]
        · rw [if_neg hab] at hxy
          by_cases hba : b.toNat < a.toNat
          · rw [if_pos hba] at hxy; cases hxy
          · rw [if_neg hba] at hxy
            by_cases hbc : b.toNat < c.toNat
            · rw [if_pos (by omega : a.toNat < c.toNat)]
            · rw [if_neg hbc] at hyz
              by_cases hcb : c.toNat < b.toNat
              · rw [if_pos hcb] at hyz; cases hyz
              · rw [if_neg hcb] at hyz
                rw [if_neg (by omega : ¬ a.toNat < c.toNat),
                  if_neg (by omega : ¬ c.toNat < a.toNat)]
                exact ih bs cs hxy hyz

theorem charListLeb_antisymm : ∀ xs ys : List Char,
    charListLeb xs ys = true → charListLeb ys xs = true → xs = ys := by
  intro xs
  induction xs with
  | nil =>
    intro ys _ hyx
    cases ys with
    | nil => rfl
    | cons b bs => simp [charListLeb] at hyx
  | cons a as ih =>
    intro ys hxy hyx
    cases ys with
    | nil => simp [charListLeb] at hxy
    | cons b bs =>
      simp only [charListLeb] at hxy hyx
      by_cases hab : a.toNat < b.toNat
      · rw [if_neg (by omega : ¬ b.toNat < a.toNat), if_pos hab] at hyx
        cases hyx
      · by_cases hba : b.toNat < a.toNat
        · rw [if_neg hab, if_pos hba] at hxy; cases hxy
        · rw [if_neg hab, if_neg hba] at hxy
          rw [if_neg hba, if_neg hab] at hyx
          have hn : a.toNat = b.toNat := by omega
          have hc : a = b := Char.eq_of_val_eq (UInt32.ext hn)
          rw [hc, ih bs hxy hyx]

theorem strLe_total (a b : String) : strLe a b ∨ strLe b a :=
  charListLeb_total a.data b.data

theorem strLe_trans (a b c : String) : strLe a b → strLe b c → strLe a c :=
  charListLeb_trans a.data b.data c.data

theorem strLe_antisymm (a b : String) : strLe a b → strLe b a → a = b := by
  intro h1 h2
  have hd : a.data = b.data := charListLeb_antisymm a.data b.data h1 h2
  cases a with
  | mk da => cases b with
    | mk db => cases hd; rfl

instance : IsTotal String strLe := ⟨strLe_total⟩

instance : IsTrans String strLe := ⟨strLe_trans⟩

theorem nodup_dedupAdj : ∀ l : List String, l.Sorted strLe → (dedupAdj l).Nodup := by
  intro l
  induction l with
  | nil => intro _; simp [dedupAdj]
  | cons a t ih =>
    intro hs
    rw [List.sorted_cons] at hs
    cases t with
    | nil => simp [dedupAdj]
    | cons b t2 =>
      by_cases hab : a = b
      · subst hab
        simp only [dedupAdj, if_pos rfl]
        exact ih hs.2
      · simp only [dedupAdj, if_neg hab, List.nodup_cons]
        refine ⟨?_, ih hs.2⟩
        rw [mem_dedupAdj]
        intro hmem
        rcases List.mem_cons.mp hmem with rfl | hmem
        · exact hab rfl
        · have h1 : strLe a b := hs.1 b (List.mem_cons_self _ _)
          have h2 : strLe b a := by
            rw [List.sorted_cons] at hs
            exact (hs.2).1 a hmem
          exact hab (strLe_antisymm a b h1 h2)

theorem mem_sortDedup (x : String) (l : List String) :
    x ∈ sortDedup l ↔ x ∈ l := by
  unfold sortDedup
  rw [mem_dedupAdj]
  exact (List.perm_insertionSort _ l).mem_iff

theorem nodup_sortDedup (l : List String) : (sortDedup l).Nodup :=
  nodup_dedupAdj _ (List.sorted_insertionSort _ l)

theorem count_nodup_filter (x : String) (l : List String) (hn : l.Nodup)
    (q : String → Bool) (f : String → ValidationError)
    (hf : Function.Injective f) :
    ((l.filter q).map f).count (f x) =
      if x ∈ l ∧ q x = true then 1 else 0 := by
  rw [List.count_map_of_injective _ f hf]
  by_cases hm : x ∈ l.filter q
  · rw [List.count_eq_one_of_mem (hn.filter q) hm]
    rw [List.mem_filter] at hm
    simp [hm.1, hm.2]
  · rw [List.count_eq_zero_of_not_mem hm]
    rw [List.mem_filter] at hm
    by_cases h1 : x ∈ l <;> by_cases h2 : q x = true <;> simp [h1, h2] at hm ⊢

theorem filterMap_if_not (p : String → Bool) (f : String → ValidationError)
    (l : List String) :
    l.filterMap (fun a => if p a then none else some (f a)) =
      (l.filter (fun a => ! p a)).map f := by
  induction l with
  | nil => simp
  | cons a t ih =>
    by_cases hp : p a <;> simp [hp, ih]

theorem standaloneTrackGo_mem_shape (title : String) (sts : List SegmentTime) :
    ∀ prev e, e ∈ standaloneTrackGo title prev sts →
      (∃ q, e = ValidationError.NegativeTime q) ∨
      (∃ s, e = ValidationError.SegmentsUnordered s) := by
  induction sts with
  | nil => intro prev e he; simp [standaloneTrackGo] at he
  | cons st rest ih =>
    intro prev e he
    simp only [standaloneTrackGo, List.mem_append] at he
    rcases he with (he | he) | he
    · left
      refine ⟨st.start, ?_⟩
      by_cases h : st.start < 0 <;> simp [h] at he <;> simp [he]
    · right
      refine ⟨title, ?_⟩
      by_cases h : st.start < prev <;> simp [h] at he <;> simp [he]
    · exact ih st.start e he

theorem count_coverage_standalone_zero (overlay : TimingOverlay)
    (e : ValidationError)
    (hshape : (∀ q, e ≠ ValidationError.NegativeTime q) ∧
              (∀ s, e ≠ ValidationError.SegmentsUnordered s)) :
    (validate_timing_overlay_standalone overlay).count e = 0 := by
  refine List.count_eq_zero_of_not_mem ?_
  intro hmem
  unfold validate_timing_overlay_standalone at hmem
  obtain ⟨t, _, hm⟩ := List.mem_flatMap.mp hmem
  rcases standaloneTrackGo_mem_shape t.track_title t.segment_times (-1) e hm with
    ⟨q, rfl⟩ | ⟨s, rfl⟩
  · exact hshape.1 q rfl
  · exact hshape.2 s rfl

theorem count_unknownseg_zero (overlay : TimingOverlay) (base : BaseLibretto)
    (e : ValidationError)
    (hshape : ∀ s, e ≠ ValidationError.UnknownSegmentId s) :
    (overlay.track_timings.flatMap (fun t =>
      t.segment_times.filterMap (fun st =>
        if base.segment_ids.contains st.segment_id then none
        else some (ValidationError.UnknownSegmentId st.segment_id)))).count e = 0 := by
  refine List.count_eq_zero_of_not_mem ?_
  intro hmem
  obtain ⟨t, _, hm⟩ := List.mem_flatMap.mp hmem
  obtain ⟨st, _, hm2⟩ := List.mem_filterMap.mp hm
  by_cases h : base.segment_ids.contains st.segment_id = true
  · rw [if_pos h] at hm2
    cases hm2
  · rw [if_neg h] at hm2
    cases hm2
    exact hshape st.segment_id rfl

theorem count_map_ne_zero (f : String → ValidationError) (l : List String)
    (e : ValidationError) (hne : ∀ s, e ≠ f s) :
    (l.map f).count e = 0 := by
  refine List.count_eq_zero_of_not_mem ?_
  intro hmem
  obtain ⟨s, _, hs⟩ := List.mem_map.mp hmem
  exact hne s hs.symm

theorem validate_timing_overlay_split (overlay : TimingOverlay)
    (base : BaseLibretto) :
    validate_timing_overlay overlay base =
      validate_timing_overlay_standalone overlay ++
      (overlay.track_timings.flatMap (fun t =>
        t.segment_times.filterMap (fun st =>
          if base.segment_ids.contains st.segment_id then none
          else some (ValidationError.UnknownSegmentId st.segment_id)))) ++
      ((sortDedup overlay.omitted_number_ids).filterMap (fun id =>
        if (sortDedup (base.numbers.map (fun n => n.id))).contains id then none
        else some (ValidationError.UnknownOmittedNumber id))) ++
      ((overlay.covered_number_ids.filter (fun id =>
        (sortDedup overlay.omitted_number_ids).contains id)).map
          ValidationError.ConflictingCoverage) ++
      (((sortDedup (base.numbers.map (fun n => n.id))).filter (fun id =>
        ¬ (overlay.covered_number_ids.contains id ∨
           (sortDedup overlay.omitted_number_ids).contains id))).map
          ValidationError.UnaccountedNumber) := rfl

/-- C4. `validate_timing_overlay` emits exactly one `UnaccountedNumber`
error per base number id neither referenced by a track nor declared
omitted, exactly one `UnknownOmittedNumber` error per omitted id absent
from the base, and exactly one `ConflictingCoverage` error per id both
referenced and omitted — so every base number id falls in exactly one of
{covered, omitted, unaccounted} up to the flagged conflicts; on
Scenario 5 the output is exactly one unaccounted error for `no-1`. -/
theorem claim4_coverage (overlay : TimingOverlay) (base : BaseLibretto)
    (x : String) :
    ((validate_timing_overlay overlay base).count
        (ValidationError.UnaccountedNumber x) =
      if x ∈ base.numbers.map (fun n => n.id) ∧
         x ∉ overlay.track_timings.flatMap (fun t => t.number_ids) ∧
         x ∉ overlay.omitted_number_ids then 1 else 0) ∧
    ((validate_timing_overlay overlay base).count
        (ValidationError.UnknownOmittedNumber x) =
      if x ∈ overlay.omitted_number_ids ∧
         x ∉ base.numbers.map (fun n => n.id) then 1 else 0) ∧
    ((validate_timing_overlay overlay base).count
        (ValidationError.ConflictingCoverage x) =
      if x ∈ overlay.track_timings.flatMap (fun t => t.number_ids) ∧
         x ∈ overlay.omitted_number_ids then 1 else 0) ∧
    validate_timing_overlay c4overlay c4base =
      [ValidationError.UnaccountedNumber ("no-1")] := by
  have hinj1 : Function.Injective ValidationError.UnaccountedNumber := by
    intro a b h; cases h; rfl
  have hinj2 : Function.Injective ValidationError.UnknownOmittedNumber := by
    intro a b h; cases h; rfl
  have hinj3 : Function.Injective ValidationError.ConflictingCoverage := by
    intro a b h; cases h; rfl
  refine ⟨?_, ?_, ?_, by decide⟩
  · rw [validate_timing_overlay_split]
    simp only [List.count_append]
    rw [count_coverage_standalone_zero overlay _ (by simp),
      count_unknownseg_zero overlay base _ (by simp),
      filterMap_if_not, count_map_ne_zero _ _ _ (by simp),
      count_map_ne_zero _ _ _ (by simp),
      count_nodup_filter x _ (nodup_sortDedup _) _ _ hinj1]
    simp only [Nat.zero_add]
    refine if_congr ?_ rfl rfl
    simp only [mem_sortDedup, decide_eq_true_eq, not_or,
      TimingOverlay.covered_number_ids, TimingOverlay.omitted_number_ids]
    constructor
    · intro ⟨h1, h2⟩
      simp only [List.elem_iff, mem_sortDedup] at h2
      tauto
    · intro ⟨h1, h2, h3⟩
      refine ⟨h1, ?_⟩
      simp only [List.elem_iff, mem_sortDedup]
      tauto
  · rw [validate_timing_overlay_split]
    simp only [List.count_append]
    rw [count_coverage_standalone_zero overlay _ (by simp),
      count_unknownseg_zero overlay base _ (by simp),
      filterMap_if_not,
      count_nodup_filter x _ (nodup_sortDedup _) _ _ hinj2,
      count_map_ne_zero _ _ _ (by simp),
      count_map_ne_zero _ _ _ (by simp)]
    simp only [Nat.zero_add, Nat.add_zero]
    refine if_congr ?_ rfl rfl
    simp only [mem_sortDedup, TimingOverlay.omitted_number_ids]
    constructor
    · intro ⟨h1, h2⟩
      simp only [Bool.not_eq_true', ← Bool.not_eq_true] at h2
      simp only [List.elem_iff, mem_sortDedup] at h2
      tauto
    · intro ⟨h1, h2⟩
      refine ⟨h1, ?_⟩
      simp only [Bool.not_eq_true', ← Bool.not_eq_true]
      simp only [List.elem_iff, mem_sortDedup]
      tauto
  · rw [validate_timing_overlay_split]
    simp only [List.count_append]
    rw [count_coverage_standalone_zero overlay _ (by simp),
      count_unknownseg_zero overlay base _ (by simp),
      filterMap_if_not, count_map_ne_zero _ _ _ (by simp),
      count_nodup_filter x _ ?hnodup _ _ hinj3,
      count_map_ne_zero _ _ _ (by simp)]
    case hnodup => exact nodup_sortDedup _
    simp only [Nat.zero_add, Nat.add_zero]
    refine if_congr ?_ rfl rfl
    simp only [TimingOverlay.covered_number_ids, TimingOverlay.omitted_number_ids,
      mem_sortDedup]
    constructor
    · intro ⟨h1, h2⟩
      simp only [List.elem_iff, mem_sortDedup] at h2
      tauto
    · intro ⟨h1, h2⟩
      refine ⟨h1, ?_⟩
      simp only [List.elem_iff, mem_sortDedup]
      tauto

/-! ### Distribution output facts shared by C2, C3 and C10 -/

theorem round_to_ms_mono {x y : ℚ} (h : x ≤ y) : round_to_ms x ≤ round_to_ms y := by
  unfold round_to_ms
  have h1 : x * 1000 ≤ y * 1000 := by linarith
  have h2 : round (x * 1000) ≤ round (y * 1000) := by
    rw [round_eq, round_eq]
    exact Int.floor_le_floor (by linarith)
  have h3 : ((round (x * 1000) : ℚ)) ≤ ((round (y * 1000) : ℚ)) := by
    exact_mod_cast h2
  linarith

theorem round_to_ms_zero : round_to_ms 0 = 0 := by
  unfold round_to_ms
  norm_num

theorem round_to_ms_nonneg {x : ℚ} (h : 0 ≤ x) : 0 ≤ round_to_ms x := by
  calc (0:ℚ) = round_to_ms 0 := round_to_ms_zero.symm
  _ ≤ round_to_ms x := round_to_ms_mono h

theorem totalWeight_nonneg (segs : List WeightedSegment)
    (h : ∀ s ∈ segs, 0 ≤ s.weight) : 0 ≤ totalWeight segs := by
  induction segs with
  | nil => simp [totalWeight]
  | cons s t ih =>
    have := h s (List.mem_cons_self _ _)
    have ht := ih (fun x hx => h x (List.mem_cons_of_mem _ hx))
    simp only [totalWeight, List.map_cons, List.sum_cons] at *
    linarith

theorem totalWeight_pos (segs : List WeightedSegment) (hne : segs ≠ [])
    (h : ∀ s ∈ segs, 0 < s.weight) : 0 < totalWeight segs := by
  cases segs with
  | nil => exact absurd rfl hne
  | cons s t =>
    have hs := h s (List.mem_cons_self _ _)
    have ht := totalWeight_nonneg t
      (fun x hx => le_of_lt (h x (List.mem_cons_of_mem _ hx)))
    simp only [totalWeight, List.map_cons, List.sum_cons] at *
    linarith

theorem distributeGo_map_id (W D : ℚ) (l : List WeightedSegment) (cum : ℚ) :
    (distributeGo W D l cum).map (fun s => s.segment_id) =
      l.map (fun s => s.id) := by
  induction l generalizing cum with
  | nil => simp [distributeGo]
  | cons s t ih => simp [distributeGo, ih]

theorem distribute_segments_map_id (segs : List WeightedSegment) (D : ℚ)
    (hne : segs ≠ []) (hD : 0 < D) (hW : totalWeight segs ≠ 0) :
    (distribute_segments segs D).map (fun s => s.segment_id) =
      segs.map (fun s => s.id) := by
  have h1 : ¬ (segs = [] ∨ D ≤ 0) := by push_neg; exact ⟨hne, hD⟩
  simp only [distribute_segments, if_neg h1, if_neg hW]
  exact distributeGo_map_id _ _ _ _

theorem distributeGo_mem_nonneg (W D : ℚ) (hW : 0 < W) (hD : 0 < D)
    (l : List WeightedSegment) (hw : ∀ s ∈ l, 0 ≤ s.weight) :
    ∀ (cum : ℚ), 0 ≤ cum →
      ∀ st ∈ distributeGo W D l cum, 0 ≤ st.start := by
  induction l with
  | nil => intro cum _ st hst; simp [distributeGo] at hst
  | cons s t ih =>
    intro cum hcum st hst
    simp only [distributeGo, List.mem_cons] at hst
    rcases hst with rfl | hst
    · refine round_to_ms_nonneg ?_
      positivity
    · refine ih (fun x hx => hw x (List.mem_cons_of_mem _ hx))
        (cum + s.weight) ?_ st hst
      have := hw s (List.mem_cons_self _ _)
      linarith

theorem distributeGo_head? (W D : ℚ) (s : WeightedSegment)
    (t : List WeightedSegment) (cum : ℚ) :
    (distributeGo W D (s :: t) cum).head? =
      some { segment_id := s.id, start := round_to_ms (cum / W * D) } := rfl

theorem distributeGo_chain (W D : ℚ) (hW : 0 < W) (hD : 0 < D)
    (l : List WeightedSegment) (hw : ∀ s ∈ l, 0 ≤ s.weight) :
    ∀ cum : ℚ,
      (distributeGo W D l cum).Chain' (fun a b => a.start ≤ b.start) := by
  induction l with
  | nil => intro cum; simp [distributeGo]
  | cons s t ih =>
    intro cum
    rw [show distributeGo W D (s :: t) cum =
      { segment_id := s.id, start := round_to_ms (cum / W * D) } ::
        distributeGo W D t (cum + s.weight) from rfl]
    rw [List.chain'_cons']
    refine ⟨?_, ih (fun x hx => hw x (List.mem_cons_of_mem _ hx)) (cum + s.weight)⟩
    intro y hy
    cases t with
    | nil => simp [distributeGo] at hy
    | cons s2 t2 =>
      rw [distributeGo_head?] at hy
      simp only [Option.mem_def, Option.some.injEq] at hy
      subst hy
      refine round_to_ms_mono ?_
      have hws : 0 ≤ s.weight := hw s (List.mem_cons_self _ _)
      have hdiv : cum / W ≤ (cum + s.weight) / W := by
        apply div_le_div_of_nonneg_right ?_ (le_of_lt hW)
        · linarith
      calc cum / W * D ≤ (cum + s.weight) / W * D := by
            exact mul_le_mul_of_nonneg_right hdiv (le_of_lt hD)

theorem distribute_valid (segs : List WeightedSegment) (D : ℚ)
    (hw : ∀ s ∈ segs, 0 ≤ s.weight) :
    (∀ st ∈ distribute_segments segs D, 0 ≤ st.start) ∧
    (distribute_segments segs D).Chain' (fun a b => a.start ≤ b.start) := by
  unfold distribute_segments
  by_cases h1 : segs = [] ∨ D ≤ 0
  · simp [h1]
  · rw [if_neg h1]
    by_cases h2 : totalWeight segs = 0
    · simp [h2]
    · rw [if_neg h2]
      push_neg at h1
      have hW : 0 < totalWeight segs :=
        lt_of_le_of_ne (totalWeight_nonneg segs hw) (Ne.symm h2)
      exact ⟨distributeGo_mem_nonneg _ _ hW h1.2 segs hw 0 (le_refl 0),
        distributeGo_chain _ _ hW h1.2 segs hw 0⟩

theorem distribute_head_zero (segs : List WeightedSegment) (D : ℚ)
    (hne : distribute_segments segs D ≠ []) :
    (distribute_segments segs D).head?.map (fun s => s.start) = some 0 := by
  unfold distribute_segments at hne ⊢
  by_cases h1 : segs = [] ∨ D ≤ 0
  · simp [h1] at hne
  · rw [if_neg h1] at hne ⊢
    by_cases h2 : totalWeight segs = 0
    · simp [h2] at hne
    · rw [if_neg h2] at hne ⊢
      cases segs with
      | nil => simp at h1
      | cons s t =>
        rw [distributeGo_head?]
        simp only [Option.map_some']
        rw [show (0:ℚ) / totalWeight (s :: t) * D = 0 by ring, round_to_ms_zero]

/-! ### Boundary-mode range assignment (C2) -/

theorem segIdxGetGo_bound (sid : String) :
    ∀ (ps : List (Nat × WeightedSegment)) (acc : Option Nat) (n : Nat),
      (∀ p ∈ ps, p.1 < n) → (∀ j, acc = some j → j < n) →
      ∀ k, ps.foldl (fun acc p => if p.2.id = sid then some p.1 else acc) acc =
          some k → k < n := by
  intro ps
  induction ps with
  | nil => intro acc n _ hacc k hk; exact hacc k hk
  | cons p t ih =>
    intro acc n hmem hacc k hk
    simp only [List.foldl_cons] at hk
    refine ih _ n (fun q hq => hmem q (List.mem_cons_of_mem _ hq)) ?_ k hk
    intro j hj
    by_cases hid : p.2.id = sid
    · rw [if_pos hid] at hj
      cases hj
      exact hmem p (List.mem_cons_self _ _)
    · rw [if_neg hid] at hj
      exact hacc j hj

theorem segIdxGet_lt (l : List WeightedSegment) (sid : String) (k : Nat)
    (h : segIdxGet l sid = some k) : k < l.length := by
  unfold segIdxGet at h
  refine segIdxGetGo_bound sid l.enum none l.length ?_ (by intro j hj; cases hj) k h
  intro p hp
  have := List.mem_enum_iff_get?.mp hp
  have h2 := List.get?_eq_some.mp this
  exact h2.1

theorem ewbEndPos_le (all : List WeightedSegment) :
    ∀ ts : List TrackTiming, ewbEndPos all.length all ts ≤ all.length := by
  intro ts
  induction ts with
  | nil => simp [ewbEndPos]
  | cons t rest ih =>
    simp only [ewbEndPos]
    cases hb : t.start_segment_id.bind (segIdxGet all) with
    | none => exact ih
    | some p =>
      obtain ⟨sid, _, hg⟩ := Option.bind_eq_some.mp hb
      exact le_of_lt (segIdxGet_lt all sid p hg)

theorem estimate_with_boundaries_getElem (base : BaseLibretto)
    (overlay : TimingOverlay) (i : Nat) (track : TrackTiming)
    (ht : overlay.track_timings[i]? = some track) :
    (estimate_with_boundaries base overlay).overlay.track_timings[i]? =
      some ((ewbStep base overlay (globalSegments base overlay)
        (build_segment_index base) overlay.covered_number_ids i track).1) := by
  unfold estimate_with_boundaries
  simp [ht]

theorem ewbTrackSegments_map_id (all : List WeightedSegment)
    (marks : List (Nat × Bool)) (sp ep : Nat) :
    (ewbTrackSegments all marks sp ep).map (fun s => s.id) =
      ((all.drop sp).take (ep - sp)).map (fun s => s.id) := by
  unfold ewbTrackSegments
  rw [List.map_map]
  have h1 : ((fun s : WeightedSegment => s.id) ∘ (fun p : Nat × WeightedSegment =>
      ({ id := p.2.id
         weight := if markAt marks (sp + p.1) then p.2.weight * RECITATIVE_DISCOUNT
           else p.2.weight } : WeightedSegment))) =
      (fun p : Nat × WeightedSegment => p.2.id) := rfl
  rw [h1]
  have h2 : (fun p : Nat × WeightedSegment => p.2.id) =
      ((fun s : WeightedSegment => s.id) ∘ Prod.snd) := rfl
  rw [h2, ← List.map_map, List.enum_map_snd]

theorem ewbTrackSegments_length (all : List WeightedSegment)
    (marks : List (Nat × Bool)) (sp ep : Nat) :
    (ewbTrackSegments all marks sp ep).length =
      ((all.drop sp).take (ep - sp)).length := by
  simp [ewbTrackSegments]

theorem ewbTrackSegments_weights_pos (all : List WeightedSegment)
    (marks : List (Nat × Bool)) (sp ep : Nat)
    (hall : ∀ s ∈ all, 0 < s.weight) :
    ∀ s ∈ ewbTrackSegments all marks sp ep, 0 < s.weight := by
  intro s hs
  unfold ewbTrackSegments at hs
  obtain ⟨p, hp, rfl⟩ := List.mem_map.mp hs
  have hp2 : p.2 ∈ (all.drop sp).take (ep - sp) :=
    List.get?_mem (List.mem_enum_iff_get?.mp hp)
  have hmem : p.2 ∈ all :=
    List.mem_of_mem_drop (List.mem_of_mem_take hp2)
  have hw := hall p.2 hmem
  dsimp only
  split
  · unfold RECITATIVE_DISCOUNT
    positivity
  · exact hw

theorem word_weight_pos (text : Option String) (ty : SegmentType) :
    0 < word_weight text ty := by
  have hnd : ∀ c : Nat,
      (0:ℚ) < (if c = 0 then MIN_SEGMENT_WEIGHT else (c : ℚ)) := by
    intro c
    split
    · unfold MIN_SEGMENT_WEIGHT; norm_num
    · rename_i h
      exact_mod_cast Nat.pos_of_ne_zero h
  cases ty with
  | direction => unfold word_weight MIN_SEGMENT_WEIGHT; norm_num
  | interlude => unfold word_weight MIN_SEGMENT_WEIGHT; norm_num
  | sung =>
    have heq : word_weight text SegmentType.sung =
        (if (match text with | some t => wordCount t | none => 0) = 0
         then MIN_SEGMENT_WEIGHT
         else ((match text with | some t => wordCount t | none => 0 : Nat) : ℚ)) := by
      unfold word_weight
      rfl
    rw [heq]
    exact hnd _
  | spoken =>
    have heq : word_weight text SegmentType.spoken =
        (if (match text with | some t => wordCount t | none => 0) = 0
         then MIN_SEGMENT_WEIGHT
         else ((match text with | some t => wordCount t | none => 0 : Nat) : ℚ)) := by
      unfold word_weight
      rfl
    rw [heq]
    exact hnd _

theorem collect_number_segments_weights_pos (n : MusicalNumber) :
    ∀ s ∈ collect_number_segments n, 0 < s.weight := by
  intro s hs
  unfold collect_number_segments at hs
  obtain ⟨seg, _, rfl⟩ := List.mem_map.mp hs
  exact word_weight_pos _ _

theorem globalSegments_weights_pos (base : BaseLibretto) (overlay : TimingOverlay) :
    ∀ s ∈ globalSegments base overlay, 0 < s.weight := by
  intro s hs
  unfold globalSegments at hs
  obtain ⟨n, _, hs2⟩ := List.mem_flatMap.mp hs
  exact collect_number_segments_weights_pos n s hs2

/-- C2. In boundary mode, a processed track's produced segment times are
exactly the ids of the global ordered segment list from its resolved
start position up to (but excluding) the next following track's resolved
start position (list end when none); consequently, in Scenario 4,
segment `no-1-003` of number `no-1` (referenced by track 1) is assigned
to track 2 because track 2's `start_segment_id` resolves to it. -/
theorem claim2_boundary_ranges :
    (∀ (base : BaseLibretto) (overlay : TimingOverlay) (i : Nat)
       (track : TrackTiming) (d : ℚ) (p e : Nat),
      overlay.track_timings[i]? = some track →
      track.segment_times = [] →
      track.duration_seconds = some d → 0 < d →
      (ewbStartPos base (globalSegments base overlay) track).1 = some p →
      ewbEndPos (globalSegments base overlay).length (globalSegments base overlay)
        (overlay.track_timings.drop (i+1)) = e →
      p < e →
      ((estimate_with_boundaries base overlay).overlay.track_timings[i]?).map
          (fun t => t.segment_times.map (fun s => s.segment_id)) =
        some ((((globalSegments base overlay).drop p).take (e - p)).map
          (fun s => s.id))) ∧
    (estimate_timings c2base c2overlay).overlay.track_timings.map
        (fun t => t.segment_times.map (fun s => s.segment_id)) =
      [["no-1-001", "no-1-002"], ["no-1-003", "no-2-001"]] := by
  constructor
  · intro base overlay i track d p e ht hempty hdur hd hsp he hlt
    rw [estimate_with_boundaries_getElem base overlay i track ht]
    simp only [Option.map_some']
    have he' : e ≤ (globalSegments base overlay).length := by
      rw [← he]
      exact ewbEndPos_le (globalSegments base overlay)
        (overlay.track_timings.drop (i+1))
    have hlen : (((globalSegments base overlay).drop p).take (e - p)).length
        = e - p := by
      simp only [List.length_take, List.length_drop]
      omega
    have hTSne : ewbTrackSegments (globalSegments base overlay)
        (resolve_section_marks track.track_title p e
          (globalSegments base overlay) (build_segment_index base)
          overlay.covered_number_ids) p e ≠ [] := by
      refine List.ne_nil_of_length_pos ?_
      rw [ewbTrackSegments_length, hlen]
      omega
    have hpos := ewbTrackSegments_weights_pos (globalSegments base overlay)
      (resolve_section_marks track.track_title p e
        (globalSegments base overlay) (build_segment_index base)
        overlay.covered_number_ids) p e
      (globalSegments_weights_pos base overlay)
    have hW : totalWeight (ewbTrackSegments (globalSegments base overlay)
        (resolve_section_marks track.track_title p e
          (globalSegments base overlay) (build_segment_index base)
          overlay.covered_number_ids) p e) ≠ 0 :=
      ne_of_gt (totalWeight_pos _ hTSne hpos)
    have hstep : (ewbStep base overlay (globalSegments base overlay)
        (build_segment_index base) overlay.covered_number_ids i track).1 =
        { track with segment_times := (distribute_segments
            (ewbTrackSegments (globalSegments base overlay)
              (resolve_section_marks track.track_title p e
                (globalSegments base overlay) (build_segment_index base)
                overlay.covered_number_ids) p e) d) } := by
      simp only [ewbStep, hempty, hdur, hsp, he]
      rw [if_neg (by simp), if_neg (by omega), ← hdur]
    rw [hstep]
    simp only
    rw [distribute_segments_map_id _ d hTSne hd hW, ewbTrackSegments_map_id]
  · decide

theorem claim2_boundary_ranges_witness :
    ((estimate_with_boundaries c2base c2overlay).overlay.track_timings[0]?).map
        (fun t => t.segment_times.map (fun s => s.segment_id)) =
      some ((((globalSegments c2base c2overlay).drop 0).take (2 - 0)).map
        (fun s => s.id)) :=
  claim2_boundary_ranges.1 c2base c2overlay 0
    (mkTrack ("Track 1") (some 100) ["no-1"] (some ("no-1-001")) []) 100 0 2
    (by decide) (by decide) (by decide) (by decide) (by decide) (by decide)
    (by decide)

/-! ### Idempotence on already-estimated tracks (C3) -/

theorem ewbStep_skip (base : BaseLibretto) (overlay : TimingOverlay)
    (all : List WeightedSegment) (cands : List SegCandidate)
    (nids : List String) (i : Nat) (track : TrackTiming)
    (h : track.segment_times ≠ []) :
    (ewbStep base overlay all cands nids i track).1 = track := by
  unfold ewbStep
  rw [if_pos h]

theorem ebn_track_durations_mem (overlay : TimingOverlay) (nid : String)
    (i : Nat) (d : ℚ)
    (hm : (i, d) ∈ (tracksReferencing overlay nid).filterMap (fun i =>
      match overlay.track_timings[i]? with
      | some track =>
        if track.segment_times ≠ [] then none
        else track.duration_seconds.map (fun d => (i, d))
      | none => none)) :
    ∃ track, overlay.track_timings[i]? = some track ∧
      track.segment_times = [] ∧ track.duration_seconds = some d := by
  rcases List.mem_filterMap.mp hm with ⟨j, hj, hf⟩
  split at hf
  · rename_i track hjt
    by_cases hne : track.segment_times ≠ []
    · rw [if_pos hne] at hf; cases hf
    · rw [if_neg hne] at hf
      cases hd : track.duration_seconds with
      | none => rw [hd] at hf; cases hf
      | some d0 =>
        rw [hd] at hf
        simp only [Option.map_some', Option.some.injEq, Prod.mk.injEq] at hf
        obtain ⟨rfl, rfl⟩ := hf
        exact ⟨track, hjt, not_not.mp hne, hd⟩
  · cases hf

theorem pooledGo_mem : ∀ (tds : List (Nat × ℚ)) (times : List SegmentTime)
    (cum : ℚ) (piece : Nat × ℚ × List SegmentTime),
    piece ∈ pooledGo tds times cum → ∃ d, (piece.1, d) ∈ tds := by
  intro tds
  induction tds with
  | nil => intro times cum piece h; simp [pooledGo] at h
  | cons td rest ih =>
    intro times cum piece h
    obtain ⟨ti, d⟩ := td
    simp only [pooledGo, List.mem_cons] at h
    rcases h with h | h
    · subst h
      exact ⟨d, List.mem_cons_self _ _⟩
    · obtain ⟨d2, hd2⟩ := ih _ _ _ h
      exact ⟨d2, List.mem_cons_of_mem _ hd2⟩

theorem ebnPooledWrite_foldl_preserve (overlay : TimingOverlay) (share : ℚ) :
    ∀ (pieces : List (Nat × ℚ × List SegmentTime)) (acc : ByNumState),
    (∀ piece ∈ pieces, ∃ track,
        overlay.track_timings[piece.1]? = some track ∧
        track.segment_times = []) →
    (∀ (i : Nat) (t : TrackTiming), overlay.track_timings[i]? = some t →
      t.segment_times ≠ [] → acc.tracks[i]? = some t) →
    ∀ (i : Nat) (t : TrackTiming), overlay.track_timings[i]? = some t →
      t.segment_times ≠ [] →
      (pieces.foldl (ebnPooledWrite overlay share) acc).tracks[i]? = some t := by
  intro pieces
  induction pieces with
  | nil => intro acc _ hacc; exact hacc
  | cons piece rest ih =>
    intro acc hmem hacc
    rw [List.foldl_cons]
    refine ih _ (fun q hq => hmem q (List.mem_cons_of_mem _ hq)) ?_
    intro i t hi hne
    unfold ebnPooledWrite
    split
    · exact hacc i t hi hne
    · rename_i track hp
      by_cases hij : i = piece.1
      · subst hij
        obtain ⟨track2, hp2, hp2e⟩ := hmem piece (List.mem_cons_self _ _)
        rw [hi] at hp2
        injection hp2 with h2
        subst h2
        exact absurd hp2e hne
      · dsimp only
        rw [List.getElem?_set_ne (fun hEq => hij hEq.symm)]
        exact hacc i t hi hne

theorem ebnStep_preserve (base : BaseLibretto) (overlay : TimingOverlay)
    (st : ByNumState) (nid : String)
    (hP : ∀ (i : Nat) (t : TrackTiming), overlay.track_timings[i]? = some t →
      t.segment_times ≠ [] → st.tracks[i]? = some t) :
    ∀ (i : Nat) (t : TrackTiming), overlay.track_timings[i]? = some t →
      t.segment_times ≠ [] →
      (ebnStep base overlay st nid).tracks[i]? = some t := by
  intro i t hi hne
  simp only [ebnStep]
  split
  · exact hP i t hi hne
  · split
    · exact hP i t hi hne
    · split
      · exact hP i t hi hne
      · rename_i h
        split
        · split
          · exact hP i t hi hne
          · split
            · exact hP i t hi hne
            · rename_i track htrack
              dsimp only
              rw [List.getElem?_set]
              split
              · rename_i heq
                obtain ⟨track2, hp2, hp2e, _⟩ :=
                  ebn_track_durations_mem overlay nid _ _ (List.head_mem h)
                rw [← heq] at hi
                have h2 : some track2 = some t := hp2.symm.trans hi
                injection h2 with h2
                subst h2
                exact absurd hp2e hne
              · exact hP i t hi hne
        · split
          · exact hP i t hi hne
          · split
            · exact hP i t hi hne
            · refine ebnPooledWrite_foldl_preserve overlay _ _ st
                (fun piece hpc => ?_) hP i t hi hne
              obtain ⟨d2, hd2⟩ := pooledGo_mem _ _ _ piece hpc
              obtain ⟨track2, hp2, hp2e, _⟩ :=
                ebn_track_durations_mem overlay nid piece.1 d2 hd2
              exact ⟨track2, hp2, hp2e⟩

theorem ebn_foldl_preserve (base : BaseLibretto) (overlay : TimingOverlay) :
    ∀ (l : List String) (st : ByNumState),
    (∀ (i : Nat) (t : TrackTiming), overlay.track_timings[i]? = some t →
      t.segment_times ≠ [] → st.tracks[i]? = some t) →
    ∀ (i : Nat) (t : TrackTiming), overlay.track_timings[i]? = some t →
      t.segment_times ≠ [] →
      (l.foldl (ebnStep base overlay) st).tracks[i]? = some t := by
  intro l
  induction l with
  | nil => intro st h; exact h
  | cons a l ih =>
    intro st h
    rw [List.foldl_cons]
    exact ih _ (ebnStep_preserve base overlay st a h)

theorem ebnPooledWrite_foldl_length (overlay : TimingOverlay) (share : ℚ) :
    ∀ (pieces : List (Nat × ℚ × List SegmentTime)) (acc : ByNumState),
    (pieces.foldl (ebnPooledWrite overlay share) acc).tracks.length =
      acc.tracks.length := by
  intro pieces
  induction pieces with
  | nil => intro acc; rfl
  | cons piece rest ih =>
    intro acc
    rw [List.foldl_cons, ih]
    unfold ebnPooledWrite
    split
    · rfl
    · dsimp only
      rw [List.length_set]

theorem ebnStep_tracks_length (base : BaseLibretto) (overlay : TimingOverlay)
    (st : ByNumState) (nid : String) :
    (ebnStep base overlay st nid).tracks.length = st.tracks.length := by
  simp only [ebnStep]
  split
  · rfl
  · split
    · rfl
    · split
      · rfl
      · split
        · split
          · rfl
          · split
            · rfl
            · dsimp only
              rw [List.length_set]
        · split
          · rfl
          · split
            · rfl
            · rw [ebnPooledWrite_foldl_length]

theorem ebn_foldl_length (base : BaseLibretto) (overlay : TimingOverlay) :
    ∀ (l : List String) (st : ByNumState),
    (l.foldl (ebnStep base overlay) st).tracks.length = st.tracks.length := by
  intro l
  induction l with
  | nil => intro st; rfl
  | cons a l ih =>
    intro st
    rw [List.foldl_cons, ih, ebnStep_tracks_length]

theorem ewb_tracks_length (base : BaseLibretto) (overlay : TimingOverlay) :
    (estimate_with_boundaries base overlay).overlay.track_timings.length =
      overlay.track_timings.length := by
  simp [estimate_with_boundaries]

/-- C3: a track whose `segment_times` is already non-empty passes through
`estimate_timings` unchanged; consequently an overlay in which every track
already has times is returned with `track_timings` unchanged. -/
theorem claim3_idempotence :
    (∀ (base : BaseLibretto) (overlay : TimingOverlay) (i : Nat)
       (t : TrackTiming),
      overlay.track_timings[i]? = some t → t.segment_times ≠ [] →
      (estimate_timings base overlay).overlay.track_timings[i]? = some t) ∧
    (∀ (base : BaseLibretto) (overlay : TimingOverlay),
      (∀ t ∈ overlay.track_timings, t.segment_times ≠ []) →
      (estimate_timings base overlay).overlay.track_timings =
        overlay.track_timings) := by
  have hpart1 : ∀ (base : BaseLibretto) (overlay : TimingOverlay) (i : Nat)
      (t : TrackTiming),
      overlay.track_timings[i]? = some t → t.segment_times ≠ [] →
      (estimate_timings base overlay).overlay.track_timings[i]? = some t := by
    intro base overlay i t hi hne
    unfold estimate_timings
    by_cases hmode : overlay.track_timings.any (fun t => t.start_segment_id.isSome)
    · rw [if_pos hmode]
      rw [estimate_with_boundaries_getElem base overlay i t hi]
      rw [ewbStep_skip base overlay _ _ _ i t hne]
    · rw [if_neg hmode]
      exact ebn_foldl_preserve base overlay (number_order overlay)
        { tracks := overlay.track_timings, estimated := [], stats := []
          warnings := [] }
        (fun _ _ h _ => h) i t hi hne
  refine ⟨hpart1, ?_⟩
  intro base overlay hall
  have hlen : (estimate_timings base overlay).overlay.track_timings.length =
      overlay.track_timings.length := by
    unfold estimate_timings
    by_cases hmode : overlay.track_timings.any (fun t => t.start_segment_id.isSome)
    · rw [if_pos hmode]
      exact ewb_tracks_length base overlay
    · rw [if_neg hmode]
      exact ebn_foldl_length base overlay (number_order overlay) _
  apply List.ext_getElem?_iff.mpr
  intro i
  cases hi : overlay.track_timings[i]? with
  | none =>
    have : overlay.track_timings.length ≤ i := List.getElem?_eq_none_iff.mp hi
    exact List.getElem?_eq_none_iff.mpr (by rw [hlen]; exact this)
  | some t =>
    exact hpart1 base overlay i t hi (hall t (List.getElem?_mem hi))

theorem claim3_idempotence_witness :
    (estimate_timings c2base c3overlay).overlay.track_timings[0]? =
      some (mkTrack ("T1") (some 125) ["no-1"] none
        [{ segment_id := ("no-1-001"), start := 0 }]) :=
  claim3_idempotence.1 c2base c3overlay 0
    (mkTrack ("T1") (some 125) ["no-1"] none
      [{ segment_id := ("no-1-001"), start := 0 }])
    (by decide) (by decide)

/-! ### Timing invariants of newly produced segment time lists (C10) -/

theorem getElem?_some_lt {α : Type} (l : List α) (i : Nat) (a : α)
    (h : l[i]? = some a) : i < l.length := by
  by_contra hc
  rw [List.getElem?_eq_none_iff.mpr (by omega)] at h
  cases h

theorem collect_track_segments_weights_pos (base : BaseLibretto)
    (track : TrackTiming) :
    ∀ s ∈ (collect_track_segments base track).1, 0 < s.weight := by
  intro s hs
  unfold collect_track_segments at hs
  obtain ⟨nid, _, hs2⟩ := List.mem_flatMap.mp hs
  cases h : base.find_number nid with
  | none => rw [h] at hs2; cases hs2
  | some n => rw [h] at hs2; exact collect_number_segments_weights_pos n s hs2

theorem takeTrackTimes_append : ∀ (ts : List SegmentTime) (e : ℚ),
    (takeTrackTimes ts e).1 ++ (takeTrackTimes ts e).2 = ts := by
  intro ts
  induction ts with
  | nil => intro e; rfl
  | cons st rest ih =>
    intro e
    unfold takeTrackTimes
    by_cases h : st.start < e ∨ rest = []
    · rw [if_pos h]
      dsimp only
      rw [List.cons_append, ih]
    · rw [if_neg h]
      rfl

theorem takeTrackTimes_chain (ts : List SegmentTime) (e : ℚ)
    (hc : ts.Chain' (fun a b => a.start ≤ b.start)) :
    ((takeTrackTimes ts e).1.Chain' (fun a b => a.start ≤ b.start)) ∧
    ((takeTrackTimes ts e).2.Chain' (fun a b => a.start ≤ b.start)) := by
  rw [← takeTrackTimes_append ts e] at hc
  exact ⟨hc.left_of_append, hc.right_of_append⟩

theorem pooledGo_pieces_valid :
    ∀ (tds : List (Nat × ℚ)) (times : List SegmentTime) (cum : ℚ),
    times.Chain' (fun a b => a.start ≤ b.start) →
    ∀ piece ∈ pooledGo tds times cum,
      (∀ s ∈ piece.2.2, 0 ≤ s.start) ∧
      piece.2.2.Chain' (fun a b => a.start ≤ b.start) := by
  intro tds
  induction tds with
  | nil => intro times cum _ piece h; simp [pooledGo] at h
  | cons td rest ih =>
    intro times cum hc piece hp
    obtain ⟨ti, d⟩ := td
    simp only [pooledGo, List.mem_cons] at hp
    rcases hp with hp | hp
    · subst hp
      dsimp only
      constructor
      · intro s hs
        obtain ⟨st, _, rfl⟩ := List.mem_map.mp hs
        exact le_max_right _ _
      · have h1 := (takeTrackTimes_chain times (cum + d) hc).1
        rw [List.chain'_map]
        refine List.Chain'.imp ?_ h1
        intro a b hab
        dsimp only
        exact sup_le_sup (by linarith) (le_refl 0)
    · exact ih _ _ (takeTrackTimes_chain times (cum + d) hc).2 piece hp

theorem distribute_head_zero_or_nil (segs : List WeightedSegment) (D : ℚ) :
    distribute_segments segs D = [] ∨
    (distribute_segments segs D).head?.map (fun s => s.start) = some 0 := by
  by_cases h : distribute_segments segs D = []
  · exact Or.inl h
  · exact Or.inr (distribute_head_zero segs D h)

theorem ewbStep_inv (base : BaseLibretto) (overlay : TimingOverlay)
    (cands : List SegCandidate) (nids : List String) (i : Nat)
    (track : TrackTiming) (h : track.segment_times = []) :
    (∀ s ∈ (ewbStep base overlay (globalSegments base overlay) cands nids i
        track).1.segment_times, 0 ≤ s.start) ∧
    ((ewbStep base overlay (globalSegments base overlay) cands nids i
        track).1.segment_times.Chain' (fun a b => a.start ≤ b.start)) ∧
    ((ewbStep base overlay (globalSegments base overlay) cands nids i
        track).1.segment_times = [] ∨
      ((ewbStep base overlay (globalSegments base overlay) cands nids i
        track).1.segment_times.head?.map (fun s => s.start)) = some 0) := by
  have hskip : (∀ s ∈ track.segment_times, (0:ℚ) ≤ s.start) ∧
      (track.segment_times.Chain' (fun a b => a.start ≤ b.start)) ∧
      (track.segment_times = [] ∨
        (track.segment_times.head?.map (fun s => s.start)) = some 0) := by
    rw [h]
    exact ⟨(by intro s hs; cases hs), List.chain'_nil, Or.inl rfl⟩
  simp only [ewbStep]
  split
  · exact hskip
  · split
    · exact hskip
    · split
      · exact hskip
      · split
        · exact hskip
        · dsimp only
          refine ⟨(distribute_valid _ _ (fun s hs => le_of_lt
              (ewbTrackSegments_weights_pos _ _ _ _
                (globalSegments_weights_pos base overlay) s hs))).1,
            (distribute_valid _ _ (fun s hs => le_of_lt
              (ewbTrackSegments_weights_pos _ _ _ _
                (globalSegments_weights_pos base overlay) s hs))).2,
            distribute_head_zero_or_nil _ _⟩

theorem ebnPooledWrite_foldl_inv (overlay : TimingOverlay) (share : ℚ) :
    ∀ (pieces : List (Nat × ℚ × List SegmentTime)) (acc : ByNumState),
    (∀ piece ∈ pieces, (∀ s ∈ piece.2.2, (0:ℚ) ≤ s.start) ∧
      piece.2.2.Chain' (fun a b => a.start ≤ b.start)) →
    (acc.tracks.length = overlay.track_timings.length) →
    (∀ (i : Nat) (track : TrackTiming), overlay.track_timings[i]? = some track →
      track.segment_times = [] →
      ∃ t', acc.tracks[i]? = some t' ∧ (∀ s ∈ t'.segment_times, (0:ℚ) ≤ s.start) ∧
        t'.segment_times.Chain' (fun a b => a.start ≤ b.start)) →
    ∀ (i : Nat) (track : TrackTiming), overlay.track_timings[i]? = some track →
      track.segment_times = [] →
      ∃ t', (pieces.foldl (ebnPooledWrite overlay share) acc).tracks[i]? = some t' ∧
        (∀ s ∈ t'.segment_times, (0:ℚ) ≤ s.start) ∧
        t'.segment_times.Chain' (fun a b => a.start ≤ b.start) := by
  intro pieces
  induction pieces with
  | nil => intro acc _ _ hacc; exact hacc
  | cons piece rest ih =>
    intro acc hmem hlen hacc
    rw [List.foldl_cons]
    refine ih _ (fun q hq => hmem q (List.mem_cons_of_mem _ hq)) ?_ ?_
    · rw [show (ebnPooledWrite overlay share acc piece).tracks.length =
        acc.tracks.length from by
          unfold ebnPooledWrite
          split
          · rfl
          · dsimp only
            rw [List.length_set]]
      exact hlen
    intro i track hi hq
    unfold ebnPooledWrite
    split
    · exact hacc i track hi hq
    · rename_i track2 hp
      dsimp only
      rw [List.getElem?_set]
      split
      · rename_i heq
        split
        · refine ⟨_, rfl, ?_, ?_⟩
          · exact (hmem piece (List.mem_cons_self _ _)).1
          · exact (hmem piece (List.mem_cons_self _ _)).2
        · rename_i hlt
          exact absurd (by
            rw [hlen]
            exact getElem?_some_lt _ _ _ (heq ▸ hi)) hlt
      · exact hacc i track hi hq

theorem ebnStep_inv_preserve (base : BaseLibretto) (overlay : TimingOverlay)
    (st : ByNumState) (nid : String)
    (hlen : st.tracks.length = overlay.track_timings.length)
    (hR : ∀ (i : Nat) (track : TrackTiming),
      overlay.track_timings[i]? = some track → track.segment_times = [] →
      ∃ t', st.tracks[i]? = some t' ∧ (∀ s ∈ t'.segment_times, (0:ℚ) ≤ s.start) ∧
        t'.segment_times.Chain' (fun a b => a.start ≤ b.start)) :
    ∀ (i : Nat) (track : TrackTiming),
      overlay.track_timings[i]? = some track → track.segment_times = [] →
      ∃ t', (ebnStep base overlay st nid).tracks[i]? = some t' ∧
        (∀ s ∈ t'.segment_times, (0:ℚ) ≤ s.start) ∧
        t'.segment_times.Chain' (fun a b => a.start ≤ b.start) := by
  intro i track hi hq
  simp only [ebnStep]
  split
  · exact hR i track hi hq
  · split
    · exact hR i track hi hq
    · split
      · exact hR i track hi hq
      · rename_i h
        split
        · split
          · exact hR i track hi hq
          · split
            · exact hR i track hi hq
            · rename_i track2 htrack2
              dsimp only
              rw [List.getElem?_set]
              split
              · rename_i heq
                split
                · refine ⟨_, rfl, ?_⟩
                  dsimp only
                  exact ⟨(distribute_valid _ _ (fun s hs => le_of_lt
                      (collect_track_segments_weights_pos base track2 s hs))).1,
                    (distribute_valid _ _ (fun s hs => le_of_lt
                      (collect_track_segments_weights_pos base track2 s hs))).2⟩
                · rename_i hlt
                  exact absurd (by
                    rw [hlen]
                    exact getElem?_some_lt _ _ _ (heq ▸ hi)) hlt
              · exact hR i track hi hq
        · split
          · exact hR i track hi hq
          · split
            · exact hR i track hi hq
            · refine ebnPooledWrite_foldl_inv overlay _ _ st
                (fun piece hpc => ?_) hlen hR i track hi hq
              refine pooledGo_pieces_valid _ _ _ ?_ piece hpc
              exact (distribute_valid _ _ (fun s hs => le_of_lt
                (collect_number_segments_weights_pos _ s hs))).2

theorem ebn_foldl_inv (base : BaseLibretto) (overlay : TimingOverlay) :
    ∀ (l : List String) (st : ByNumState),
    (st.tracks.length = overlay.track_timings.length) →
    (∀ (i : Nat) (track : TrackTiming),
      overlay.track_timings[i]? = some track → track.segment_times = [] →
      ∃ t', st.tracks[i]? = some t' ∧ (∀ s ∈ t'.segment_times, (0:ℚ) ≤ s.start) ∧
        t'.segment_times.Chain' (fun a b => a.start ≤ b.start)) →
    ∀ (i : Nat) (track : TrackTiming),
      overlay.track_timings[i]? = some track → track.segment_times = [] →
      ∃ t', (l.foldl (ebnStep base overlay) st).tracks[i]? = some t' ∧
        (∀ s ∈ t'.segment_times, (0:ℚ) ≤ s.start) ∧
        t'.segment_times.Chain' (fun a b => a.start ≤ b.start) := by
  intro l
  induction l with
  | nil => intro st _ h; exact h
  | cons a l ih =>
    intro st hlen h
    rw [List.foldl_cons]
    exact ih _ (by rw [ebnStep_tracks_length]; exact hlen)
      (ebnStep_inv_preserve base overlay st a hlen h)

/-- C10 counterexample: in the pooled multi-track split, a later track's
renormalized list does not begin at 0. With `c10base`/`c10overlay`
(weights `[1,1,1,1]`, pooled durations 10 and 90), both input lists are
empty, and number mode produces starts `[[0], [15, 40, 65]]`: track 2's
first start is 15, refuting the claimed "first start is 0" for every
newly produced list. -/
theorem claim10_counterexample :
    (∀ t ∈ c10overlay.track_timings, t.segment_times = []) ∧
    (estimate_timings c10base c10overlay).overlay.track_timings.map
        (fun t => t.segment_times.map (fun s => s.start)) =
      [[0], [15, 40, 65]] ∧
    ((estimate_timings c10base c10overlay).overlay.track_timings.map
        (fun t => t.segment_times.head?.map (fun s => s.start))) ≠
      [some 0, some 0] :=
  ⟨by decide, by decide, by decide⟩

/-- C10 (amended). Every segment-time list the Estimator produces for a
track whose input `segment_times` was empty has non-negative starts that
are non-decreasing in list order, in both modes; in boundary mode the
produced list additionally is empty or begins at start 0. (The original
claim's "first start is 0" fails for later tracks of a pooled
multi-track split, whose starts are renormalized by their own offset —
see the counterexample.) -/
theorem claim10_invariants_amended :
    (∀ (base : BaseLibretto) (overlay : TimingOverlay) (i : Nat)
       (track : TrackTiming),
      overlay.track_timings[i]? = some track → track.segment_times = [] →
      ∃ t', (estimate_timings base overlay).overlay.track_timings[i]? =
          some t' ∧
        (∀ s ∈ t'.segment_times, (0:ℚ) ≤ s.start) ∧
        t'.segment_times.Chain' (fun a b => a.start ≤ b.start)) ∧
    (∀ (base : BaseLibretto) (overlay : TimingOverlay) (i : Nat)
       (track : TrackTiming),
      overlay.track_timings.any (fun t => t.start_segment_id.isSome) = true →
      overlay.track_timings[i]? = some track → track.segment_times = [] →
      ∃ t', (estimate_timings base overlay).overlay.track_timings[i]? =
          some t' ∧
        (t'.segment_times = [] ∨
          t'.segment_times.head?.map (fun s => s.start) = some 0)) := by
  constructor
  · intro base overlay i track hi hq
    unfold estimate_timings
    by_cases hmode : overlay.track_timings.any
      (fun t => t.start_segment_id.isSome)
    · rw [if_pos hmode]
      rw [estimate_with_boundaries_getElem base overlay i track hi]
      have hv := ewbStep_inv base overlay (build_segment_index base)
        overlay.covered_number_ids i track hq
      exact ⟨_, rfl, hv.1, hv.2.1⟩
    · rw [if_neg hmode]
      refine ebn_foldl_inv base overlay (number_order overlay)
        { tracks := overlay.track_timings, estimated := [], stats := []
          warnings := [] } rfl ?_ i track hi hq
      intro j tr hj hjq
      refine ⟨tr, hj, ?_, ?_⟩
      · rw [hjq]; intro s hs; cases hs
      · rw [hjq]; exact List.chain'_nil
  · intro base overlay i track hmode hi hq
    unfold estimate_timings
    rw [if_pos hmode]
    rw [estimate_with_boundaries_getElem base overlay i track hi]
    have hv := ewbStep_inv base overlay (build_segment_index base)
      overlay.covered_number_ids i track hq
    exact ⟨_, rfl, hv.2.2⟩

theorem claim10_invariants_amended_witness :
    ∃ t', (estimate_timings c10base c10overlay).overlay.track_timings[1]? =
        some t' ∧
      (∀ s ∈ t'.segment_times, (0:ℚ) ≤ s.start) ∧
      t'.segment_times.Chain' (fun a b => a.start ≤ b.start) :=
  claim10_invariants_amended.1 c10base c10overlay 1
    (mkTrack ("P2") (some 90) ["n1"] none []) (by decide) (by decide)

end TheoremsSection

end Libretto
